import Mathlib

/-
Verification of the gocache repository: a content-addressed disk cache
(package cachedir) behind a GOCACHEPROG protocol server (package gocache).

The embedding models the filesystem state of a cache directory as two
association lists keyed by id: one for files under root/action/<id[:2]>/<id>
and one for files under root/object/<id[:2]>/<id>.  The two-level shard
layout is represented by the path-derivation functions actionPath and
objectPath, which return none when the Go expression id[:2] would panic
(slice bound out of range for len(id) < 2).  File contents are byte strings
modelled as Lean strings; sizes are content lengths as Int (Go int64).
Modification times are abstract Int instants.
-/

/- A file (or directory entry) in the modelled filesystem.  isRegular is
false for directories and other non-regular entries. -/
structure GoFile where
  content : String
  modTime : Int
  isRegular : Bool
deriving Repr, DecidableEq

/- Association-list lookup, mirroring a stat/open of path root/kind/id[:2]/id. -/
def lookupFile : List (String × GoFile) → String → Option GoFile
  | [], _ => none
  | (k, f) :: rest, id => if k = id then some f else lookupFile rest id

/- Atomic create-or-replace of the file for an id (write-then-rename). -/
def setFile : List (String × GoFile) → String → GoFile → List (String × GoFile)
  | [], id, f => [(id, f)]
  | (k, g) :: rest, id, f => if k = id then (id, f) :: rest else (k, g) :: setFile rest id f

/- Real directory trees have one entry per path. -/
def keysNodup (l : List (String × GoFile)) : Prop := (l.map Prod.fst).Nodup

/- Decimal digit character, as produced by Go fmt %d for one digit. -/
def decDigitChar (n : Nat) : Char :=
  match n with
  | 0 => '0' | 1 => '1' | 2 => '2' | 3 => '3' | 4 => '4'
  | 5 => '5' | 6 => '6' | 7 => '7' | 8 => '8' | _ => '9'

/- Decimal digit loop of Go strconv.FormatInt: peel digits from the least
significant end, prepending them to ds.  The fuel argument only bounds the
recursion and never runs out when fuel > n. -/
def natDecCharsAux : Nat → Nat → List Char → List Char
  | 0, _, ds => ds
  | fuel + 1, n, ds =>
    let d := decDigitChar (n % 10)
    if n / 10 = 0 then d :: ds else natDecCharsAux fuel (n / 10) (d :: ds)

/- Decimal digit list of a natural number, most significant first:
the digits that Go strconv.FormatInt(n, 10) produces for n >= 0. -/
def natDecChars (n : Nat) : List Char := natDecCharsAux (n + 1) n []

/- Go fmt %d of an int64 value. -/
def goFormatInt (i : Int) : String :=
  if i < 0 then String.mk ('-' :: natDecChars (-i).toNat)
  else String.mk (natDecChars i.toNat)

/- One step of the digit loop of Go strconv.ParseInt for base 10. -/
def decDigitStep (acc : Option Nat) (c : Char) : Option Nat :=
  match acc with
  | none => none
  | some n => if c.isDigit then some (n * 10 + (c.toNat - 48)) else none

/- Value of a list of decimal digit characters; none if a non-digit occurs. -/
def decDigitsVal (cs : List Char) : Option Nat := cs.foldl decDigitStep (some 0)

def int64Max : Int := 9223372036854775807
def int64Min : Int := -9223372036854775808

/- The unsigned tail of Go strconv.ParseInt: one or more decimal digits,
signed value within the int64 range; none models a non-nil error. -/
def parseUnsigned (sign : Int) (ds : List Char) : Option Int :=
  if ds = [] then none
  else
    match decDigitsVal ds with
    | none => none
    | some n =>
      let v : Int := sign * n
      if int64Min ≤ v ∧ v ≤ int64Max then some v else none

/- Go strconv.ParseInt(s, 10, 64): optional sign, then one or more decimal
digits, value within the int64 range; none models a non-nil error. -/
def parseInt64 (s : String) : Option Int :=
  match s.data with
  | [] => none
  | c :: rest =>
    if c = '+' then parseUnsigned 1 rest
    else if c = '-' then parseUnsigned (-1) rest
    else parseUnsigned 1 (c :: rest)

/- Go strings.Fields: split around runs of whitespace.  acc holds the
current in-progress field in reverse order. -/
def goFieldsAux : List Char → List Char → List (List Char)
  | [], acc => if acc = [] then [] else [acc.reverse]
  | c :: rest, acc =>
    if c.isWhitespace then
      if acc = [] then goFieldsAux rest []
      else acc.reverse :: goFieldsAux rest []
    else goFieldsAux rest (c :: acc)

def goFields (s : String) : List (List Char) := goFieldsAux s.data []

/- The cache directory handle: d.path is the root directory. -/
structure Dir where
  path : String
deriving Repr, DecidableEq

/- Go id[:2]: the first two bytes of the id, or none when len(id) < 2 and
the slice expression panics. -/
def sliceTwo (id : String) : Option String :=
  if 2 ≤ id.length then some (id.take 2) else none

/- filepath.Join(d.path, "action", id[:2], id); none models the slice panic. -/
def Dir.actionPath (d : Dir) (id : String) : Option String :=
  (sliceTwo id).map (fun p => d.path ++ "/action/" ++ p ++ "/" ++ id)

/- filepath.Join(d.path, "object", id[:2], id); none models the slice panic. -/
def Dir.objectPath (d : Dir) (id : String) : Option String :=
  (sliceTwo id).map (fun p => d.path ++ "/object/" ++ p ++ "/" ++ id)

/- Errors surfaced by the disk store. -/
inductive GoErr where
  | notExist
  | readDir
  | invalidActionFile (id : String)
  | parseIntFailed (s : String)
  | writeFailed
deriving Repr, DecidableEq

/- Outcome of a store operation: a Go panic, a non-nil error, or a value. -/
inductive DOut (α : Type) where
  | panicked
  | failed (e : GoErr)
  | ok (a : α)
deriving Repr, DecidableEq

def DOut.map (f : α → β) : DOut α → DOut β
  | .panicked => .panicked
  | .failed e => .failed e
  | .ok a => .ok (f a)

/- The state of one cache directory: the files under action/ and object/. -/
structure DirState where
  actions : List (String × GoFile)
  objects : List (String × GoFile)
deriving Repr, DecidableEq

/- os.ReadFile on the entry for an id: notExist when absent, an error when
the entry is not a regular file (e.g. a directory), else the contents. -/
def readFileFrom (m : List (String × GoFile)) (id : String) : Except GoErr String :=
  match lookupFile m id with
  | none => .error .notExist
  | some f => if f.isRegular then .ok f.content else .error .readDir

/- The parsing part of Dir.readActionFile: exactly two whitespace-separated
fields, the second a decimal int64. -/
def parseAction (id : String) (data : String) : Except GoErr (String × Int) :=
  match goFields data with
  | [oid, szs] =>
    match parseInt64 (String.mk szs) with
    | none => .error (.parseIntFailed (String.mk szs))
    | some sz => .ok (String.mk oid, sz)
  | _ => .error (.invalidActionFile id)

/- Dir.readActionFile: read the file, then parse it. -/
def readActionFile (m : List (String × GoFile)) (id : String) : Except GoErr (String × Int) :=
  match readFileFrom m id with
  | .error e => .error e
  | .ok data => parseAction id data

/- Dir.readAction: derive the action path (which can panic on short ids)
and read the action file. -/
def Dir.readAction (d : Dir) (st : DirState) (id : String) : DOut (String × Int) :=
  match d.actionPath id with
  | none => .panicked
  | some _ =>
    match readActionFile st.actions id with
    | .error e => .failed e
    | .ok r => .ok r

/- Dir.Get: read the action record; absence is a miss ("", "").  Then stat
the referenced object; a stat failure or a size mismatch is also a miss.
On a hit, return the object id and its disk path. -/
def Dir.Get (d : Dir) (st : DirState) (actionID : String) : DOut (String × String) :=
  match d.readAction st actionID with
  | .panicked => .panicked
  | .failed .notExist => .ok ("", "")
  | .failed e => .failed e
  | .ok (objectID, sz) =>
    match d.objectPath objectID with
    | .none => .panicked
    | .some diskPath =>
      match lookupFile st.objects objectID with
      | none => .ok ("", "")
      | some fi =>
        if (fi.content.length : Int) ≠ sz then .ok ("", "")
        else .ok (objectID, diskPath)

/- An object to be stored (gocache.Object).  ModTime none models the zero
time.Time. -/
structure Object where
  ActionID : String
  ObjectID : String
  Size : Int
  Body : String
  ModTime : Option Int := none

/- Dir.writeAction: atomically rewrite the action record with the line
"<objectID> <size>\n"; the file's new modification time is now.  The
atomic rename fails when a non-regular entry occupies the path. -/
def Dir.writeAction (d : Dir) (st : DirState) (id objectID : String) (size : Int)
    (now : Int) : DOut DirState :=
  match d.actionPath id with
  | none => .panicked
  | some _ =>
    let data := objectID ++ " " ++ goFormatInt size ++ "\n"
    match lookupFile st.actions id with
    | some g =>
      if g.isRegular then
        .ok { st with actions := setFile st.actions id ⟨data, now, true⟩ }
      else .failed .writeFailed
    | none => .ok { st with actions := setFile st.actions id ⟨data, now, true⟩ }

/- Dir.writeObject: if a regular file of exactly the expected size already
sits at the object path, skip the write.  Otherwise write the body
atomically; the new modification time is obj.ModTime when non-zero, else
the time of the write. -/
def Dir.writeObject (d : Dir) (st : DirState) (obj : Object) (now : Int) :
    DOut (String × Int × DirState) :=
  match d.objectPath obj.ObjectID with
  | none => .panicked
  | some path =>
    match lookupFile st.objects obj.ObjectID with
    | some fi =>
      if fi.isRegular ∧ (fi.content.length : Int) = obj.Size then
        .ok (path, (fi.content.length : Int), st)
      else
        if fi.isRegular then
          let mt := match obj.ModTime with | some t => t | none => now
          .ok (path, (obj.Body.length : Int),
            { st with objects := setFile st.objects obj.ObjectID ⟨obj.Body, mt, true⟩ })
        else .failed .writeFailed
    | none =>
      let mt := match obj.ModTime with | some t => t | none => now
      .ok (path, (obj.Body.length : Int),
        { st with objects := setFile st.objects obj.ObjectID ⟨obj.Body, mt, true⟩ })

/- Dir.Put: write the object, then rewrite the action record to point at
the object id and the written size. -/
def Dir.Put (d : Dir) (st : DirState) (obj : Object) (now : Int) :
    DOut (String × DirState) :=
  match d.writeObject st obj now with
  | .panicked => .panicked
  | .failed e => .failed e
  | .ok (path, size, st1) =>
    match d.writeAction st1 obj.ActionID obj.ObjectID size now with
    | .panicked => .panicked
    | .failed e => .failed e
    | .ok st2 => .ok (path, st2)

/- Statistics reported by Dir.PruneEntries.  The wall-clock Elapsed field of
the Go struct is not modelled. -/
structure Stats where
  Actions : Nat
  ActionsPruned : Nat
  Objects : Nat
  ObjectsPruned : Nat
  BytesPruned : Int
deriving Repr, DecidableEq

/- Result of the mark pass: the surviving action files, the ids of marked
(retained) objects, and the seen/pruned counters. -/
structure MarkOut where
  kept : List (String × GoFile)
  keep : List String
  seen : Nat
  pruned : Nat
deriving Repr, DecidableEq

/- The mark pass of Dir.PruneEntries, walking the files under action/.
Non-regular entries and entries with an empty derived id are skipped in
place.  A record whose referenced object file is absent is pruned as
invalid; a record older than age is pruned as expired; otherwise the
action is kept and its object id marked.  A malformed record aborts the
walk with its error; a record naming an object id shorter than two bytes
panics in objectPath. -/
def markActions (d : Dir) (objs : List (String × GoFile)) (now age : Int) :
    List (String × GoFile) → DOut MarkOut
  | [] => .ok ⟨[], [], 0, 0⟩
  | (id, f) :: rest =>
    if f.isRegular = false then
      (markActions d objs now age rest).map (fun o => ⟨(id, f) :: o.kept, o.keep, o.seen, o.pruned⟩)
    else if id = "" then
      (markActions d objs now age rest).map (fun o => ⟨(id, f) :: o.kept, o.keep, o.seen, o.pruned⟩)
    else
      match parseAction id f.content with
      | .error e => .failed e
      | .ok (objID, _sz) =>
        match d.objectPath objID with
        | none => .panicked
        | some _ =>
          match lookupFile objs objID with
          | none =>
            (markActions d objs now age rest).map
              (fun o => ⟨o.kept, o.keep, o.seen + 1, o.pruned + 1⟩)
          | some _ =>
            if now - f.modTime > age then
              (markActions d objs now age rest).map
                (fun o => ⟨o.kept, o.keep, o.seen + 1, o.pruned + 1⟩)
            else
              (markActions d objs now age rest).map
                (fun o => ⟨(id, f) :: o.kept, objID :: o.keep, o.seen + 1, o.pruned⟩)

/- Result of the sweep pass: surviving object files plus counters. -/
structure SweepOut where
  kept : List (String × GoFile)
  seen : Nat
  pruned : Nat
  bytes : Int
deriving Repr, DecidableEq

/- The sweep pass of Dir.PruneEntries, walking the files under object/.
Regular files whose id is not in the mark set are removed (a removal
failure is logged and ignored, so removal always takes effect here). -/
def sweepObjects (keep : List String) : List (String × GoFile) → SweepOut
  | [] => ⟨[], 0, 0, 0⟩
  | (id, f) :: rest =>
    let o := sweepObjects keep rest
    if f.isRegular = false then ⟨(id, f) :: o.kept, o.seen, o.pruned, o.bytes⟩
    else if id ≠ "" ∧ id ∉ keep then
      ⟨o.kept, o.seen + 1, o.pruned + 1, o.bytes + (f.content.length : Int)⟩
    else ⟨(id, f) :: o.kept, o.seen + 1, o.pruned, o.bytes⟩

/- Dir.PruneEntries: mark then sweep, producing the pruned state and the
statistics summary. -/
def Dir.PruneEntries (d : Dir) (st : DirState) (now age : Int) : DOut (DirState × Stats) :=
  match markActions d st.objects now age st.actions with
  | .panicked => .panicked
  | .failed e => .failed e
  | .ok mo =>
    let so := sweepObjects mo.keep st.objects
    .ok (⟨mo.kept, so.kept⟩, ⟨mo.seen, mo.pruned, so.seen, so.pruned, so.bytes⟩)

/- An action entry that the mark pass counts: a regular file with a
non-empty derived id. -/
def countedEntry (e : String × GoFile) : Bool := e.2.isRegular && e.1 ≠ ""

def countedActions (l : List (String × GoFile)) : Nat := (l.filter countedEntry).length

/- The object id oid is referenced by a surviving action record of st. -/
def survivorRefs (st : DirState) (oid : String) : Prop :=
  ∃ id f sz, (id, f) ∈ st.actions ∧ f.isRegular = true ∧ id ≠ "" ∧
    parseAction id f.content = .ok (oid, sz)

/- A Go time.Time value: an instant plus a location; UTC() keeps the
instant and normalizes the location. -/
structure GoTime where
  instant : Int
  loc : String
deriving Repr, DecidableEq

def GoTime.utc (t : GoTime) : GoTime := ⟨t.instant, "UTC"⟩

/- Result of os.Stat as the server sees it: the path does not exist, some
other stat failure, or file info (size, mod time, regular-file bit). -/
inductive StatRes where
  | statNotExist
  | statOtherErr
  | statInfo (size : Int) (mtime : GoTime) (regular : Bool)
deriving Repr, DecidableEq

/- The filesystem as visible to the server handlers through os.Stat. -/
structure Env where
  stat : String → StatRes

/- The expvar counters of the Server. -/
structure Metrics where
  getRequests : Int := 0
  getHits : Int := 0
  getHitBytes : Int := 0
  getMisses : Int := 0
  getErrors : Int := 0
  putRequests : Int := 0
  putBytes : Int := 0
  putErrors : Int := 0
deriving Repr, DecidableEq

/- progRequest: one decoded client message.  Body is never populated by
JSON decoding (tag json:"-"); the decode loop attaches it. -/
structure ProgRequest where
  ID : Int := 0
  Command : String := ""
  ActionID : List Nat := []
  OutputID : List Nat := []
  BodySize : Int := 0
  Body : String := ""
deriving Repr, DecidableEq

/- progResponse: one server message. -/
structure ProgResponse where
  ID : Int := 0
  Err : String := ""
  KnownCommands : List String := []
  Miss : Bool := false
  Size : Int := 0
  Time : Option GoTime := none
  DiskPath : String := ""
deriving Repr, DecidableEq

/- The server callbacks.  Hooks are modelled as pure functions; the close
hook's outcome is its (optional) error. -/
structure Server where
  GetHook : Option (String → Except String (String × String)) := none
  PutHook : Option (Object → Except String String) := none
  CloseHook : Option (Option String) := none

/- Server.commands: the command names whose hooks are configured, built by
successive appends in the order get, put, close. -/
def Server.commands (s : Server) : List String :=
  let out : List String := []
  let out := match s.GetHook with | some _ => out ++ ["get"] | none => out
  let out := match s.PutHook with | some _ => out ++ ["put"] | none => out
  match s.CloseHook with | some _ => out ++ ["close"] | none => out

/- Lower-case hex digit for one nibble, as printed by fmt %x. -/
def hexNibbleChar (n : Nat) : Char :=
  match n with
  | 0 => '0' | 1 => '1' | 2 => '2' | 3 => '3' | 4 => '4' | 5 => '5'
  | 6 => '6' | 7 => '7' | 8 => '8' | 9 => '9' | 10 => 'a' | 11 => 'b'
  | 12 => 'c' | 13 => 'd' | 14 => 'e' | _ => 'f'

/- fmt.Sprintf %x of a byte slice: two lower-case hex digits per byte. -/
def hexBytes (bs : List Nat) : String :=
  String.mk (bs.foldr
    (fun b acc => hexNibbleChar (b % 256 / 16) :: hexNibbleChar (b % 16) :: acc) [])

def isHexDigitChar (c : Char) : Bool :=
  c.isDigit || ('a' ≤ c && c ≤ 'f') || ('A' ≤ c && c ≤ 'F')

/- hex.DecodeString succeeds iff the length is even and every character is
a hex digit. -/
def hexDecodeOk (s : String) : Bool :=
  s.length % 2 = 0 && s.data.all isHexDigitChar

/- Server.handleRequest: dispatch one request, returning the response or a
request-scoped error, together with the updated metrics (the deferred
counter increments are applied on each return path). -/
def handleRequest (s : Server) (env : Env) (m : Metrics) (req : ProgRequest) :
    Except String ProgResponse × Metrics :=
  if req.Command = "get" then
    let m := { m with getRequests := m.getRequests + 1 }
    match s.GetHook with
    | none => (.ok { Miss := true }, { m with getMisses := m.getMisses + 1 })
    | some hook =>
      match hook (hexBytes req.ActionID) with
      | .error e =>
        (.error ("get " ++ hexBytes req.ActionID ++ ": " ++ e),
         { m with getErrors := m.getErrors + 1 })
      | .ok (objectID, diskPath) =>
        if objectID = "" ∧ diskPath = "" then
          (.ok { Miss := true }, { m with getMisses := m.getMisses + 1 })
        else if objectID = "" then
          (.error "get: empty object ID", { m with getErrors := m.getErrors + 1 })
        else if hexDecodeOk objectID = false then
          (.error "get: invalid object ID", { m with getErrors := m.getErrors + 1 })
        else
          match env.stat diskPath with
          | .statNotExist =>
            (.ok { Miss := true }, { m with getMisses := m.getMisses + 1 })
          | .statOtherErr =>
            (.error "get: verify path", { m with getErrors := m.getErrors + 1 })
          | .statInfo size mtime regular =>
            if regular = false then
              (.error ("get: verify path: not a regular file: " ++ diskPath),
               { m with getErrors := m.getErrors + 1 })
            else
              (.ok { Size := size, Time := some mtime.utc, DiskPath := diskPath },
               { m with getHits := m.getHits + 1, getHitBytes := m.getHitBytes + size })
  else if req.Command = "put" then
    let m := { m with putRequests := m.putRequests + 1 }
    match s.PutHook with
    | none => (.error "put: cache is read-only", { m with putErrors := m.putErrors + 1 })
    | some hook =>
      match hook { ActionID := hexBytes req.ActionID, ObjectID := hexBytes req.OutputID,
                   Size := req.BodySize, Body := req.Body, ModTime := none } with
      | .error e =>
        (.error ("put " ++ hexBytes req.ActionID ++ ": " ++ e),
         { m with putErrors := m.putErrors + 1 })
      | .ok diskPath =>
        match env.stat diskPath with
        | .statInfo size _ _ =>
          if size ≠ req.BodySize then
            (.error ("put action verify " ++ diskPath ++ ": size mismatch"),
             { m with putErrors := m.putErrors + 1 })
          else
            (.ok { DiskPath := diskPath }, { m with putBytes := m.putBytes + size })
        | _ =>
          (.error "put action verify: stat failed",
           { m with putErrors := m.putErrors + 1 })
  else if req.Command = "close" then
    match s.CloseHook with
    | some res =>
      match res with
      | some e => (.error e, m)
      | none => (.ok {}, m)
    | none => (.ok {}, m)
  else
    (.error ("unknown command " ++ req.Command), m)

/- One value on the input stream as the JSON decoder sees it: a decodable
request object, a decodable string value (a put body), or a value that
fails to decode. -/
inductive WireItem where
  | reqItem (r : ProgRequest)
  | bodyItem (b : String)
  | badItem

/- The response Run writes for one handled request: the handler response
with the request id echoed, or an error response carrying the id. -/
def mkResponse (r : ProgRequest) (res : Except String ProgResponse) : ProgResponse :=
  match res with
  | .error e => { ID := r.ID, Err := e }
  | .ok pr => { pr with ID := r.ID }

/- The decode loop of Server.Run.  End of input at a request boundary is a
clean stop (no error); any other decode failure, and a put body whose
byte count differs from the declared BodySize, terminates the session
with an error and processes nothing further.  For a put with a positive
BodySize the loop reads one more value as the body and counts its declared
size into putBytes before dispatching.  Request handling is serialized in
decode order here; the bounded concurrent dispatch of the Go code is not
modelled, so responses appear in request order. -/
def serveLoop (s : Server) (env : Env) :
    Metrics → List WireItem → List ProgResponse × Metrics × Option String
  | m, [] => ([], m, none)
  | m, .badItem :: _ => ([], m, some "decode request: invalid message")
  | m, .bodyItem _ :: _ => ([], m, some "decode request: unexpected string value")
  | m, .reqItem r :: rest =>
    if r.Command = "put" ∧ r.BodySize > 0 then
      match rest with
      | .bodyItem b :: rest2 =>
        if (b.length : Int) ≠ r.BodySize then
          ([], m, some "request body: byte count mismatch")
        else
          let m1 : Metrics := { m with putBytes := m.putBytes + r.BodySize }
          let hr := handleRequest s env m1 { r with Body := b }
          let step := serveLoop s env hr.2 rest2
          (mkResponse r hr.1 :: step.1, step.2)
      | _ => ([], m, some "decode body: invalid or missing value")
    else
      let hr := handleRequest s env m { r with Body := "" }
      let step := serveLoop s env hr.2 rest
      (mkResponse r hr.1 :: step.1, step.2)

/- The overall session result: all responses written, final metrics, and
the error Run returns (none for a clean end of input). -/
structure RunResult where
  responses : List ProgResponse
  metrics : Metrics
  terminal : Option String

/- Server.Run: emit the banner advertising the configured commands before
reading anything, then run the decode loop from zeroed metrics. -/
def Server.Run (s : Server) (env : Env) (input : List WireItem) : RunResult :=
  let banner : ProgResponse := { ID := 0, KnownCommands := s.commands }
  let out := serveLoop s env {} input
  ⟨banner :: out.1, out.2.1, out.2.2⟩

/- An input stream that the decode loop consumes without any decode or
framing failure. -/
def wellFramed : List WireItem → Bool
  | [] => true
  | .reqItem r :: rest =>
    if r.Command = "put" ∧ r.BodySize > 0 then
      match rest with
      | .bodyItem b :: rest2 =>
        if (b.length : Int) = r.BodySize then wellFramed rest2 else false
      | _ => false
    else wellFramed rest
  | _ => false

example : Dir.Get ⟨"r"⟩ ⟨[], []⟩ "nonesuch" = .ok ("", "") := by decide

example :
    Dir.Get ⟨"r"⟩ ⟨[("aaaa", ⟨"bbbb 1\n", 0, true⟩)], [("bbbb", ⟨"x", 0, true⟩)]⟩ "aaaa"
      = .ok ("bbbb", "r/object/bb/bbbb") := by decide

example :
    Dir.Get ⟨"r"⟩ ⟨[("aaaa", ⟨"bbbb 2\n", 0, true⟩)], [("bbbb", ⟨"x", 0, true⟩)]⟩ "aaaa"
      = .ok ("", "") := by decide

example : Dir.Get ⟨"r"⟩ ⟨[("aa", ⟨"b 5\n", 0, true⟩)], []⟩ "aa" = .panicked := by decide

/- Pruning: action aa is fresh and keeps object bb; action cc references a
missing object dd and is pruned as invalid; object ee is unreferenced and
is swept. -/
example :
    Dir.PruneEntries ⟨"r"⟩
      ⟨[("aa", ⟨"bb 1\n", 8, true⟩), ("cc", ⟨"dd 5\n", 9, true⟩)],
       [("bb", ⟨"x", 1, true⟩), ("ee", ⟨"zz", 2, true⟩)]⟩ 10 5
      = .ok (⟨[("aa", ⟨"bb 1\n", 8, true⟩)], [("bb", ⟨"x", 1, true⟩)]⟩,
          ⟨2, 1, 2, 1, 2⟩) := by decide

example :
    Dir.Put ⟨"r"⟩ ⟨[], []⟩ ⟨"0304", "0b1ec7", 5, "xyzzy", none⟩ 7
      = .ok ("r/object/0b/0b1ec7",
          ⟨[("0304", ⟨"0b1ec7 5\n", 7, true⟩)], [("0b1ec7", ⟨"xyzzy", 7, true⟩)]⟩) := by
  decide

/- A session mirroring the server test: banner, then a get miss, a get
hit, a get error, a put, and a close, ending with clean EOF. -/
def exampleGetHook : String → Except String (String × String) := fun actionID =>
  if actionID = "01" then .ok ("", "")
  else if actionID = "02" then .ok ("0b1ec7", "objpath")
  else .error "erroneous condition"

def examplePutHook : Object → Except String String := fun _ => .ok "objpath"

def exampleServer : Server :=
  { GetHook := some exampleGetHook,
    PutHook := some examplePutHook,
    CloseHook := some none }

def exampleEnv : Env :=
  ⟨fun p => if p = "objpath" then .statInfo 5 ⟨42, "Local"⟩ true else .statNotExist⟩

example :
    (exampleServer.Run exampleEnv
      [.reqItem { ID := 1, Command := "get", ActionID := [1] },
       .reqItem { ID := 2, Command := "get", ActionID := [2] },
       .reqItem { ID := 3, Command := "get", ActionID := [153] },
       .reqItem { ID := 4, Command := "put", ActionID := [3], OutputID := [11, 30, 199],
                  BodySize := 5 },
       .bodyItem "xyzzy",
       .reqItem { ID := 999, Command := "close" }]).responses
      = [{ ID := 0, KnownCommands := ["get", "put", "close"] },
         { ID := 1, Miss := true },
         { ID := 2, Size := 5, Time := some ⟨42, "UTC"⟩, DiskPath := "objpath" },
         { ID := 3, Err := "get 99: erroneous condition" },
         { ID := 4, DiskPath := "objpath" },
         { ID := 999 }] := by decide

example :
    (exampleServer.Run exampleEnv
      [.reqItem { ID := 1, Command := "get", ActionID := [1] }]).terminal = none := by
  decide

/- A well-framed input stream is consumed to the end without a terminal
error.  Strong induction on the stream length because a framed put
consumes two items at once. -/
theorem serveLoop_wellFramed_none (s : Server) (env : Env) :
    ∀ (n : Nat) (input : List WireItem), input.length ≤ n →
      ∀ m : Metrics, wellFramed input = true → (serveLoop s env m input).2.2 = none := by
  intro n
  induction n with
  | zero =>
    intro input hlen m _
    have h0 : input = [] := List.length_eq_zero.mp (Nat.le_zero.mp hlen)
    subst h0
    rfl
  | succ n ih =>
    intro input hlen m hw
    match input with
    | [] => rfl
    | .badItem :: rest => simp [wellFramed] at hw
    | .bodyItem b :: rest => simp [wellFramed] at hw
    | [.reqItem r] =>
      simp only [wellFramed] at hw
      by_cases hc : r.Command = "put" ∧ r.BodySize > 0
      · rw [if_pos hc] at hw
        exact absurd hw (by simp)
      · simp only [serveLoop]
        rw [if_neg hc]
    | .reqItem r :: .badItem :: rest =>
      simp only [wellFramed] at hw
      by_cases hc : r.Command = "put" ∧ r.BodySize > 0
      · rw [if_pos hc] at hw
        exact absurd hw (by simp)
      · rw [if_neg hc] at hw
        simp [wellFramed] at hw
    | .reqItem r :: .reqItem r2 :: rest =>
      simp only [wellFramed] at hw
      by_cases hc : r.Command = "put" ∧ r.BodySize > 0
      · rw [if_pos hc] at hw
        exact absurd hw (by simp)
      · rw [if_neg hc] at hw
        simp only [serveLoop]
        rw [if_neg hc]
        exact ih (.reqItem r2 :: rest) (by simp at hlen ⊢; omega) _ hw
    | .reqItem r :: .bodyItem b :: rest2 =>
      simp only [wellFramed] at hw
      by_cases hc : r.Command = "put" ∧ r.BodySize > 0
      · rw [if_pos hc] at hw
        by_cases hlb : (b.length : Int) = r.BodySize
        · rw [if_pos hlb] at hw
          simp only [serveLoop]
          rw [if_pos hc, if_neg (fun hne => hne hlb)]
          exact ih rest2 (by simp at hlen ⊢; omega) _ hw
        · rw [if_neg hlb] at hw
          exact absurd hw (by simp)
      · rw [if_neg hc] at hw
        simp [wellFramed] at hw

/-- Claim C4: for every input stream, clean end of input at a request
boundary makes Run return nil; any other decode failure of a request or a
body, and a put body whose decoded byte count differs from the declared
BodySize, terminates the session with that error, producing no further
responses and touching no further input. -/
theorem run_session_termination (s : Server) (env : Env) (m : Metrics) :
    serveLoop s env m [] = ([], m, none)
    ∧ (∀ input, wellFramed input = true → (serveLoop s env m input).2.2 = none)
    ∧ (∀ rest, serveLoop s env m (.badItem :: rest)
        = ([], m, some "decode request: invalid message"))
    ∧ (∀ b rest, serveLoop s env m (.bodyItem b :: rest)
        = ([], m, some "decode request: unexpected string value"))
    ∧ (∀ r (b : String) rest, r.Command = "put" → r.BodySize > 0 →
        (b.length : Int) ≠ r.BodySize →
        serveLoop s env m (.reqItem r :: .bodyItem b :: rest)
          = ([], m, some "request body: byte count mismatch"))
    ∧ (∀ input, wellFramed input = true → (s.Run env input).terminal = none) := by
  refine ⟨rfl, ?_, fun _ => rfl, fun _ _ => rfl, ?_, ?_⟩
  · intro input hw
    exact serveLoop_wellFramed_none s env input.length input le_rfl m hw
  · intro r b rest h1 h2 h3
    rw [serveLoop, if_pos ⟨h1, h2⟩, if_pos h3]
  · intro input hw
    exact serveLoop_wellFramed_none s env input.length input le_rfl {} hw

theorem run_session_termination_witness :
    (exampleServer.Run exampleEnv
        [.reqItem { ID := 1, Command := "get", ActionID := [1] },
         .reqItem { ID := 4, Command := "put", ActionID := [3], OutputID := [11],
                    BodySize := 5 },
         .bodyItem "xyzzy"]).terminal = none
    ∧ serveLoop exampleServer exampleEnv {}
        [.reqItem { ID := 4, Command := "put", BodySize := 5 }, .bodyItem "xyz"]
        = ([], {}, some "request body: byte count mismatch") := by
  refine ⟨?_, ?_⟩
  · exact (run_session_termination exampleServer exampleEnv {}).2.2.2.2.2 _ (by decide)
  · exact (run_session_termination exampleServer exampleEnv {}).2.2.2.2.1
      { ID := 4, Command := "put", BodySize := 5 } "xyz" [] rfl (by decide) (by decide)

/-- Claim C7: the first message Run writes, before consuming any input,
has id 0 and advertises exactly the commands among get, put, close whose
hooks are configured, in that order. -/
theorem banner_precedes_all_traffic (s : Server) (env : Env) (input : List WireItem) :
    ∃ rest, (s.Run env input).responses
        = { ID := 0, KnownCommands := s.commands } :: rest
      ∧ s.commands
        = (if s.GetHook.isSome then ["get"] else [])
          ++ (if s.PutHook.isSome then ["put"] else [])
          ++ (if s.CloseHook.isSome then ["close"] else []) := by
  refine ⟨(serveLoop s env {} input).1, rfl, ?_⟩
  unfold Server.commands
  cases s.GetHook <;> cases s.PutHook <;> cases s.CloseHook <;> simp

/-- Claim C5: for every get request, a hook result of ("", "") is a miss
and no error; a non-empty hook result whose object id is empty or not
valid hex is a request error; a non-existent disk path is a miss; any
other stat failure or a non-regular file is a request error; otherwise the
response carries the file size, its modification time normalized to UTC,
and the disk path. -/
theorem get_handler_validation (s : Server) (env : Env) (m : Metrics) (r : ProgRequest)
    (hook : String → Except String (String × String))
    (hcmd : r.Command = "get") (hhook : s.GetHook = some hook) :
    (hook (hexBytes r.ActionID) = .ok ("", "") →
      (handleRequest s env m r).1 = .ok { Miss := true })
    ∧ (∀ oid path, hook (hexBytes r.ActionID) = .ok (oid, path) →
        ¬(oid = "" ∧ path = "") → oid = "" ∨ hexDecodeOk oid = false →
        ∃ e, (handleRequest s env m r).1 = .error e)
    ∧ (∀ oid path, hook (hexBytes r.ActionID) = .ok (oid, path) →
        oid ≠ "" → hexDecodeOk oid = true → env.stat path = .statNotExist →
        (handleRequest s env m r).1 = .ok { Miss := true })
    ∧ (∀ oid path, hook (hexBytes r.ActionID) = .ok (oid, path) →
        oid ≠ "" → hexDecodeOk oid = true → env.stat path = .statOtherErr →
        ∃ e, (handleRequest s env m r).1 = .error e)
    ∧ (∀ oid path size mtime, hook (hexBytes r.ActionID) = .ok (oid, path) →
        oid ≠ "" → hexDecodeOk oid = true → env.stat path = .statInfo size mtime false →
        ∃ e, (handleRequest s env m r).1 = .error e)
    ∧ (∀ oid path size mtime, hook (hexBytes r.ActionID) = .ok (oid, path) →
        oid ≠ "" → hexDecodeOk oid = true → env.stat path = .statInfo size mtime true →
        (handleRequest s env m r).1
          = .ok { Size := size, Time := some mtime.utc, DiskPath := path }) := by
  refine ⟨?_, ?_, ?_, ?_, ?_, ?_⟩
  · intro hres
    simp [handleRequest, hcmd, hhook, hres]
  · intro oid path hres hne hbad
    rcases hbad with hoid | hhex
    · have hpath : ¬path = "" := fun hp => hne ⟨hoid, hp⟩
      refine ⟨"get: empty object ID", ?_⟩
      simp [handleRequest, hcmd, hhook, hres, hoid, hpath]
    · by_cases hoid : oid = ""
      · have hpath : ¬path = "" := fun hp => hne ⟨hoid, hp⟩
        refine ⟨"get: empty object ID", ?_⟩
        simp [handleRequest, hcmd, hhook, hres, hoid, hpath]
      · refine ⟨"get: invalid object ID", ?_⟩
        simp [handleRequest, hcmd, hhook, hres, hoid, hhex]
  · intro oid path hres hoid hhex hstat
    simp [handleRequest, hcmd, hhook, hres, hoid, hhex, hstat]
  · intro oid path hres hoid hhex hstat
    refine ⟨"get: verify path", ?_⟩
    simp [handleRequest, hcmd, hhook, hres, hoid, hhex, hstat]
  · intro oid path size mtime hres hoid hhex hstat
    refine ⟨"get: verify path: not a regular file: " ++ path, ?_⟩
    simp [handleRequest, hcmd, hhook, hres, hoid, hhex, hstat]
  · intro oid path size mtime hres hoid hhex hstat
    simp [handleRequest, hcmd, hhook, hres, hoid, hhex, hstat]

theorem get_handler_validation_witness :
    (handleRequest exampleServer exampleEnv {} { ID := 1, Command := "get", ActionID := [1] }).1
      = .ok { Miss := true }
    ∧ (handleRequest exampleServer exampleEnv {} { ID := 2, Command := "get", ActionID := [2] }).1
      = .ok { Size := 5, Time := some ⟨42, "UTC"⟩, DiskPath := "objpath" } := by
  constructor
  · exact (get_handler_validation exampleServer exampleEnv {}
      { ID := 1, Command := "get", ActionID := [1] } exampleGetHook rfl rfl).1 rfl
  · exact (get_handler_validation exampleServer exampleEnv {}
      { ID := 2, Command := "get", ActionID := [2] } exampleGetHook rfl rfl).2.2.2.2.2
      "0b1ec7" "objpath" 5 ⟨42, "Local"⟩ rfl (by decide) (by decide) (by decide)

/-- Claim C6: for every put request, a missing Put hook fails the request
with a read-only-cache error; a hook success whose reported file is
missing, unstattable, or of a size different from the declared BodySize
fails the request; and such request failures leave the session loop
running on the remaining input. -/
theorem put_handler_verification (s : Server) (env : Env) (m : Metrics) (r : ProgRequest)
    (hcmd : r.Command = "put") :
    (s.PutHook = none → (handleRequest s env m r).1 = .error "put: cache is read-only")
    ∧ (∀ hook path, s.PutHook = some hook →
        hook { ActionID := hexBytes r.ActionID, ObjectID := hexBytes r.OutputID,
               Size := r.BodySize, Body := r.Body, ModTime := none } = .ok path →
        env.stat path = .statNotExist ∨ env.stat path = .statOtherErr →
        ∃ e, (handleRequest s env m r).1 = .error e)
    ∧ (∀ hook path size mtime regular, s.PutHook = some hook →
        hook { ActionID := hexBytes r.ActionID, ObjectID := hexBytes r.OutputID,
               Size := r.BodySize, Body := r.Body, ModTime := none } = .ok path →
        env.stat path = .statInfo size mtime regular → size ≠ r.BodySize →
        ∃ e, (handleRequest s env m r).1 = .error e)
    ∧ (∀ e, mkResponse r (.error e) = { ID := r.ID, Err := e })
    ∧ (∀ rest, r.BodySize ≤ 0 →
        serveLoop s env m (.reqItem r :: rest)
          = (mkResponse r (handleRequest s env m { r with Body := "" }).1
               :: (serveLoop s env (handleRequest s env m { r with Body := "" }).2 rest).1,
             (serveLoop s env (handleRequest s env m { r with Body := "" }).2 rest).2))
    ∧ (∀ (b : String) rest, r.BodySize > 0 → (b.length : Int) = r.BodySize →
        serveLoop s env m (.reqItem r :: .bodyItem b :: rest)
          = (mkResponse r (handleRequest s env
                { m with putBytes := m.putBytes + r.BodySize } { r with Body := b }).1
               :: (serveLoop s env (handleRequest s env
                     { m with putBytes := m.putBytes + r.BodySize } { r with Body := b }).2
                     rest).1,
             (serveLoop s env (handleRequest s env
                 { m with putBytes := m.putBytes + r.BodySize } { r with Body := b }).2
                 rest).2)) := by
  refine ⟨?_, ?_, ?_, fun _ => rfl, ?_, ?_⟩
  · intro hnone
    simp [handleRequest, hcmd, hnone]
  · intro hook path hhook hres hstat
    rcases hstat with hstat | hstat
    · exact ⟨"put action verify: stat failed", by simp [handleRequest, hcmd, hhook, hres, hstat]⟩
    · exact ⟨"put action verify: stat failed", by simp [handleRequest, hcmd, hhook, hres, hstat]⟩
  · intro hook path size mtime regular hhook hres hstat hsz
    refine ⟨"put action verify " ++ path ++ ": size mismatch", ?_⟩
    simp [handleRequest, hcmd, hhook, hres, hstat, hsz]
  · intro rest hble
    have hc : ¬(r.Command = "put" ∧ r.BodySize > 0) := fun h => absurd h.2 (by omega)
    match rest with
    | [] => simp only [serveLoop]; rw [if_neg hc]
    | .badItem :: _ => simp only [serveLoop]; rw [if_neg hc]
    | .bodyItem _ :: _ => simp only [serveLoop]; rw [if_neg hc]
    | .reqItem _ :: _ => simp only [serveLoop]; rw [if_neg hc]
  · intro b rest hpos hlen
    simp only [serveLoop]
    rw [if_pos ⟨hcmd, hpos⟩, if_neg (fun hne => hne hlen)]

theorem put_handler_verification_witness :
    (handleRequest { GetHook := exampleServer.GetHook } exampleEnv {}
        { ID := 4, Command := "put", BodySize := 5 }).1
      = .error "put: cache is read-only"
    ∧ ∃ e, (handleRequest exampleServer exampleEnv {}
        { ID := 4, Command := "put", BodySize := 7, Body := "toolong" }).1 = .error e := by
  constructor
  · exact (put_handler_verification { GetHook := exampleServer.GetHook } exampleEnv {}
      { ID := 4, Command := "put", BodySize := 5 } rfl).1 rfl
  · exact (put_handler_verification exampleServer exampleEnv {}
      { ID := 4, Command := "put", BodySize := 7, Body := "toolong" } rfl).2.2.1
      examplePutHook "objpath" 5 ⟨42, "Local"⟩ true rfl rfl (by decide) (by decide)

/-- Claim C9: a successful over-the-wire put with declared BodySize n > 0
increases the putBytes counter by 2 * n: the decode loop adds n after
reading the body and the handler adds the verified file size n again. -/
theorem put_bytes_double_count (s : Server) (env : Env) (m : Metrics) (r : ProgRequest)
    (b : String) (rest : List WireItem) (hook : Object → Except String String)
    (path : String) (mtime : GoTime) (regular : Bool)
    (hcmd : r.Command = "put") (hpos : r.BodySize > 0) (hlen : (b.length : Int) = r.BodySize)
    (hhook : s.PutHook = some hook)
    (hres : hook { ActionID := hexBytes r.ActionID, ObjectID := hexBytes r.OutputID,
                   Size := r.BodySize, Body := b, ModTime := none } = .ok path)
    (hstat : env.stat path = .statInfo r.BodySize mtime regular) :
    ∃ m2, serveLoop s env m (.reqItem r :: .bodyItem b :: rest)
        = ({ ID := r.ID, DiskPath := path } :: (serveLoop s env m2 rest).1,
           (serveLoop s env m2 rest).2)
      ∧ m2.putBytes = m.putBytes + 2 * r.BodySize := by
  refine ⟨(handleRequest s env { m with putBytes := m.putBytes + r.BodySize }
    { r with Body := b }).2, ?_, ?_⟩
  · simp only [serveLoop]
    rw [if_pos ⟨hcmd, hpos⟩, if_neg (fun hne => hne hlen)]
    have hh : (handleRequest s env { m with putBytes := m.putBytes + r.BodySize }
        { r with Body := b }).1 = .ok { DiskPath := path } := by
      simp [handleRequest, hcmd, hhook, hres, hstat]
    rw [hh]
    rfl
  · have hh : (handleRequest s env { m with putBytes := m.putBytes + r.BodySize }
        { r with Body := b }).2
        = { m with putRequests := m.putRequests + 1,
                   putBytes := m.putBytes + r.BodySize + r.BodySize } := by
      simp [handleRequest, hcmd, hhook, hres, hstat]
    rw [hh]
    ring

theorem put_bytes_double_count_witness :
    ∃ m2, serveLoop exampleServer exampleEnv {}
        [.reqItem { ID := 4, Command := "put", ActionID := [3], OutputID := [11, 30, 199],
                    BodySize := 5 },
         .bodyItem "xyzzy"]
        = ({ ID := 4, DiskPath := "objpath" } :: (serveLoop exampleServer exampleEnv m2 []).1,
           (serveLoop exampleServer exampleEnv m2 []).2)
      ∧ m2.putBytes = (({} : Metrics)).putBytes + 2 * 5 :=
  put_bytes_double_count exampleServer exampleEnv {}
    { ID := 4, Command := "put", ActionID := [3], OutputID := [11, 30, 199], BodySize := 5 }
    "xyzzy" [] examplePutHook "objpath" ⟨42, "Local"⟩ true rfl (by decide) (by decide) rfl
    rfl (by decide)

/-- Claim C3: when an action record parses correctly but the referenced
object file is missing or its size differs from the recorded size, Dir.Get
returns the miss pair and no error.  Ids are well-formed hex ids of length
at least two, as the store's path derivation requires. -/
theorem stale_action_record_is_miss (d : Dir) (st : DirState) (actionID objID : String)
    (sz : Int) (f : GoFile)
    (ha : 2 ≤ actionID.length)
    (hf : lookupFile st.actions actionID = some f) (hreg : f.isRegular = true)
    (hparse : parseAction actionID f.content = .ok (objID, sz))
    (ho : 2 ≤ objID.length)
    (hstale : ∀ g, lookupFile st.objects objID = some g → (g.content.length : Int) ≠ sz) :
    d.Get st actionID = .ok ("", "") := by
  unfold Dir.Get Dir.readAction readActionFile readFileFrom
  simp only [Dir.actionPath, Dir.objectPath, sliceTwo, ha, if_pos, Option.map_some']
  rw [hf]
  simp only [hreg, if_true, hparse]
  simp only [ho, if_pos, Option.map_some']
  cases hlo : lookupFile st.objects objID with
  | none => rfl
  | some g => simp [hstale g hlo]

theorem stale_action_record_is_miss_witness :
    Dir.Get ⟨"r"⟩ ⟨[("aaaa", ⟨"bbbb 2\n", 0, true⟩)], [("bbbb", ⟨"x", 0, true⟩)]⟩ "aaaa"
      = .ok ("", "")
    ∧ Dir.Get ⟨"r"⟩ ⟨[("cccc", ⟨"dddd 1\n", 0, true⟩)], []⟩ "cccc" = .ok ("", "") := by
  constructor
  · refine stale_action_record_is_miss ⟨"r"⟩ _ "aaaa" "bbbb" 2 ⟨"bbbb 2\n", 0, true⟩
      (by decide) (by decide) (by decide) rfl (by decide) ?_
    intro g hg
    have hgv : some (⟨"x", 0, true⟩ : GoFile) = some g := hg
    injection hgv with hv
    rw [hv.symm]
    decide
  · refine stale_action_record_is_miss ⟨"r"⟩ _ "cccc" "dddd" 1 ⟨"dddd 1\n", 0, true⟩
      (by decide) (by decide) (by decide) rfl (by decide) ?_
    intro g hg
    exact Option.noConfusion hg

/-- Claim C8: a put of an object id whose object file already exists as a
regular file of exactly the declared size does not rewrite the object
file: writeObject returns the state unchanged, and Put leaves the object
map (contents and modification times) untouched, rewriting only the
action record. -/
theorem idempotent_object_write (d : Dir) (st : DirState) (obj : Object) (now : Int)
    (f : GoFile)
    (ho : 2 ≤ obj.ObjectID.length)
    (hf : lookupFile st.objects obj.ObjectID = some f) (hreg : f.isRegular = true)
    (hsz : (f.content.length : Int) = obj.Size) :
    d.writeObject st obj now
      = .ok (d.path ++ "/object/" ++ obj.ObjectID.take 2 ++ "/" ++ obj.ObjectID,
          (f.content.length : Int), st)
    ∧ (∀ path st2, d.Put st obj now = .ok (path, st2) →
        st2.objects = st.objects ∧ lookupFile st2.objects obj.ObjectID = some f) := by
  have h1 : d.writeObject st obj now
      = .ok (d.path ++ "/object/" ++ obj.ObjectID.take 2 ++ "/" ++ obj.ObjectID,
          (f.content.length : Int), st) := by
    unfold Dir.writeObject
    simp only [Dir.objectPath, sliceTwo, ho, if_pos, Option.map_some']
    simp only [hf]
    rw [if_pos ⟨hreg, hsz⟩]
  refine ⟨h1, ?_⟩
  intro path st2 hput
  unfold Dir.Put at hput
  simp only [h1] at hput
  unfold Dir.writeAction at hput
  cases hap : d.actionPath obj.ActionID with
  | none =>
    simp only [hap] at hput
    exact DOut.noConfusion hput
  | some p =>
    simp only [hap] at hput
    cases hla : lookupFile st.actions obj.ActionID with
    | none =>
      simp only [hla] at hput
      cases hput
      exact ⟨rfl, hf⟩
    | some g =>
      simp only [hla] at hput
      by_cases hg : g.isRegular = true
      · rw [if_pos hg] at hput
        cases hput
        exact ⟨rfl, hf⟩
      · rw [if_neg hg] at hput
        cases hput

theorem idempotent_object_write_witness :
    Dir.writeObject ⟨"r"⟩ ⟨[], [("0b1ec7", ⟨"xyzzy", 3, true⟩)]⟩
        ⟨"0304", "0b1ec7", 5, "qqqqq", none⟩ 9
      = .ok ("r/object/0b/0b1ec7", 5, ⟨[], [("0b1ec7", ⟨"xyzzy", 3, true⟩)]⟩)
    ∧ ∀ path st2,
        Dir.Put ⟨"r"⟩ ⟨[], [("0b1ec7", ⟨"xyzzy", 3, true⟩)]⟩
            ⟨"0304", "0b1ec7", 5, "qqqqq", none⟩ 9 = .ok (path, st2) →
        st2.objects = [("0b1ec7", ⟨"xyzzy", 3, true⟩)]
          ∧ lookupFile st2.objects "0b1ec7" = some ⟨"xyzzy", 3, true⟩ :=
  idempotent_object_write ⟨"r"⟩ ⟨[], [("0b1ec7", ⟨"xyzzy", 3, true⟩)]⟩
    ⟨"0304", "0b1ec7", 5, "qqqqq", none⟩ 9 ⟨"xyzzy", 3, true⟩
    (by decide) (by decide) (by decide) (by decide)

/-- Claim C10, counterexample: a length-two action id does not make the
panic branch of Dir.Get unreachable.  The record "b 5" parses correctly,
and Get then slices the one-character object id "b" in objectPath, which
panics even though the action id "aa" has length two. -/
theorem shard_slice_get_panic_counterexample :
    2 ≤ ("aa" : String).length
      ∧ Dir.Get ⟨"r"⟩ ⟨[("aa", ⟨"b 5\n", 0, true⟩)], []⟩ "aa" = .panicked := by decide

/-- Claim C10, amended: actionPath and objectPath slice id[:2], so an id
shorter than two characters panics in either; under the precondition that
the argument id has length at least two, readAction and Put cannot reach
the panic, and Get additionally needs every object id parsed from the
action record to have length at least two, since Get also slices that
parsed id. -/
theorem shard_path_partiality (d : Dir) (st : DirState) (id : String) :
    (id.length < 2 → d.actionPath id = none ∧ d.objectPath id = none)
    ∧ (2 ≤ id.length →
        d.actionPath id ≠ none ∧ d.objectPath id ≠ none
        ∧ d.readAction st id ≠ .panicked
        ∧ ((∀ oid sz, d.readAction st id = .ok (oid, sz) → 2 ≤ oid.length) →
            d.Get st id ≠ .panicked))
    ∧ (∀ (obj : Object) (now : Int), 2 ≤ obj.ActionID.length → 2 ≤ obj.ObjectID.length →
        d.Put st obj now ≠ .panicked) := by
  refine ⟨?_, ?_, ?_⟩
  · intro hlt
    have h2 : ¬(2 ≤ id.length) := by omega
    simp [Dir.actionPath, Dir.objectPath, sliceTwo, h2]
  · intro hle
    have hra : d.readAction st id ≠ .panicked := by
      unfold Dir.readAction
      simp only [Dir.actionPath, sliceTwo, hle, if_pos, Option.map_some']
      cases readActionFile st.actions id <;> simp
    refine ⟨by simp [Dir.actionPath, sliceTwo, hle], by simp [Dir.objectPath, sliceTwo, hle],
      hra, ?_⟩
    intro hoid
    unfold Dir.Get
    cases hr : d.readAction st id with
    | panicked => exact absurd hr hra
    | failed e => cases e <;> simp
    | ok pr =>
      obtain ⟨oid, sz⟩ := pr
      have h2 : 2 ≤ oid.length := hoid oid sz hr
      simp only [Dir.objectPath, sliceTwo, h2, if_pos, Option.map_some']
      cases lookupFile st.objects oid with
      | none => simp
      | some g => by_cases hgs : (g.content.length : Int) ≠ sz <;> simp [hgs]
  · intro obj now ha ho
    unfold Dir.Put Dir.writeObject Dir.writeAction
    simp only [Dir.objectPath, Dir.actionPath, sliceTwo, ha, ho, if_pos, Option.map_some']
    cases hlo : lookupFile st.objects obj.ObjectID with
    | none =>
      simp only [hlo]
      cases hla : lookupFile st.actions obj.ActionID with
      | none => simp [hla]
      | some g => by_cases hg : g.isRegular = true <;> simp [hla, hg]
    | some fi =>
      simp only [hlo]
      by_cases h1 : fi.isRegular = true ∧ (fi.content.length : Int) = obj.Size
      · rw [if_pos h1]
        cases hla : lookupFile st.actions obj.ActionID with
        | none => simp [hla]
        | some g => by_cases hg : g.isRegular = true <;> simp [hla, hg]
      · rw [if_neg h1]
        by_cases h2 : fi.isRegular = true
        · rw [if_pos h2]
          cases hla : lookupFile st.actions obj.ActionID with
          | none => simp [hla]
          | some g => by_cases hg : g.isRegular = true <;> simp [hla, hg]
        · rw [if_neg h2]
          simp

theorem shard_path_partiality_witness :
    Dir.actionPath ⟨"r"⟩ "a" = none
    ∧ Dir.Get ⟨"r"⟩ ⟨[("aaaa", ⟨"bbbb 1\n", 0, true⟩)], [("bbbb", ⟨"x", 0, true⟩)]⟩ "aaaa"
        ≠ .panicked
    ∧ Dir.Put ⟨"r"⟩ ⟨[], []⟩ ⟨"0304", "0b1ec7", 5, "xyzzy", none⟩ 7 ≠ .panicked := by
  refine ⟨((shard_path_partiality ⟨"r"⟩ ⟨[], []⟩ "a").1 (by decide)).1, ?_, ?_⟩
  · refine ((shard_path_partiality ⟨"r"⟩
      ⟨[("aaaa", ⟨"bbbb 1\n", 0, true⟩)], [("bbbb", ⟨"x", 0, true⟩)]⟩ "aaaa").2.1
      (by decide)).2.2.2 ?_
    intro oid sz h
    have he : Dir.readAction ⟨"r"⟩
        ⟨[("aaaa", ⟨"bbbb 1\n", 0, true⟩)], [("bbbb", ⟨"x", 0, true⟩)]⟩ "aaaa"
        = .ok ("bbbb", 1) := by decide
    rw [he] at h
    injection h with h1
    injection h1 with h2 h3
    rw [h2.symm]
    decide
  · exact (shard_path_partiality ⟨"r"⟩ ⟨[], []⟩ "whatever").2.2
      ⟨"0304", "0b1ec7", 5, "xyzzy", none⟩ 7 (by decide) (by decide)

/- The digit formatter with sufficient fuel produces the canonical digit
string followed by the accumulator. -/
theorem natDecCharsAux_shape (n : Nat) : ∀ (fuel : Nat) (ds : List Char), n < fuel →
    natDecCharsAux fuel n ds = natDecChars n ++ ds := by
  induction' n using Nat.strong_induction_on with n ih
  intro fuel ds hlt
  match fuel, hlt with
  | 0, hlt => exact absurd hlt (Nat.not_lt_zero n)
  | fuel + 1, hlt =>
    rw [natDecCharsAux]
    by_cases h0 : n / 10 = 0
    · rw [if_pos h0, natDecChars, natDecCharsAux, if_pos h0]
      rfl
    · have hn : 0 < n := Nat.pos_of_ne_zero (fun h => h0 (by simp [h]))
      have hd : n / 10 < n := Nat.div_lt_self hn (by norm_num)
      have hfuel : n / 10 < fuel := lt_of_lt_of_le hd (Nat.lt_succ_iff.mp hlt)
      rw [if_neg h0]
      rw [ih (n / 10) hd fuel (decDigitChar (n % 10) :: ds) hfuel]
      conv_rhs => rw [natDecChars, natDecCharsAux, if_neg h0]
      rw [ih (n / 10) hd n (decDigitChar (n % 10) :: ([] : List Char)) hd]
      simp

theorem natDecChars_small (n : Nat) (h : n < 10) : natDecChars n = [decDigitChar n] := by
  rw [natDecChars, natDecCharsAux, if_pos (Nat.div_eq_of_lt h), Nat.mod_eq_of_lt h]

theorem natDecChars_large (n : Nat) (h : 10 ≤ n) :
    natDecChars n = natDecChars (n / 10) ++ [decDigitChar (n % 10)] := by
  have h0 : ¬ n / 10 = 0 := by omega
  rw [natDecChars, natDecCharsAux, if_neg h0]
  exact natDecCharsAux_shape (n / 10) n (decDigitChar (n % 10) :: [])
    (Nat.div_lt_self (by omega) (by norm_num))

theorem decDigitChar_isDigit (m : Nat) (h : m < 10) : (decDigitChar m).isDigit = true := by
  interval_cases m <;> decide

theorem decDigitChar_toNat (m : Nat) (h : m < 10) : (decDigitChar m).toNat - 48 = m := by
  interval_cases m <;> decide

theorem natDecChars_all_digits (n : Nat) : ∀ c ∈ natDecChars n, c.isDigit = true := by
  induction' n using Nat.strong_induction_on with n ih
  by_cases h : n < 10
  · rw [natDecChars_small n h]
    intro c hc
    rw [List.mem_singleton.mp hc]
    exact decDigitChar_isDigit n h
  · rw [natDecChars_large n (by omega)]
    intro c hc
    rcases List.mem_append.mp hc with hc | hc
    · exact ih (n / 10) (Nat.div_lt_self (by omega) (by norm_num)) c hc
    · rw [List.mem_singleton.mp hc]
      exact decDigitChar_isDigit _ (Nat.mod_lt n (by norm_num))

theorem natDecChars_ne_nil (n : Nat) : natDecChars n ≠ [] := by
  by_cases h : n < 10
  · rw [natDecChars_small n h]
    simp
  · rw [natDecChars_large n (by omega)]
    simp

/- Folding the parse step over the digits of n appends n to the
accumulated value. -/
theorem foldl_decDigitStep_natDecChars (n : Nat) : ∀ a : Nat,
    List.foldl decDigitStep (some a) (natDecChars n)
      = some (a * 10 ^ (natDecChars n).length + n) := by
  induction' n using Nat.strong_induction_on with n ih
  intro a
  by_cases h : n < 10
  · rw [natDecChars_small n h]
    simp only [List.foldl, decDigitStep, decDigitChar_isDigit n h, if_true,
      decDigitChar_toNat n h, List.length_singleton, pow_one]
  · have h10 : 10 ≤ n := by omega
    rw [natDecChars_large n h10, List.foldl_append]
    rw [ih (n / 10) (Nat.div_lt_self (by omega) (by norm_num)) a]
    have hmod : n % 10 < 10 := Nat.mod_lt n (by norm_num)
    simp only [List.foldl, decDigitStep, decDigitChar_isDigit _ hmod, if_true,
      decDigitChar_toNat _ hmod, List.length_append, List.length_singleton]
    have hqr : 10 * (n / 10) + n % 10 = n := Nat.div_add_mod n 10
    congr 1
    calc (a * 10 ^ (natDecChars (n / 10)).length + n / 10) * 10 + n % 10
        = a * (10 ^ (natDecChars (n / 10)).length * 10) + (10 * (n / 10) + n % 10) := by
          ring
      _ = a * 10 ^ ((natDecChars (n / 10)).length + 1) + n := by rw [hqr, pow_succ]

theorem decDigitsVal_natDecChars (n : Nat) : decDigitsVal (natDecChars n) = some n := by
  rw [decDigitsVal, foldl_decDigitStep_natDecChars n 0]
  simp

theorem stringMk_data (s : String) : String.mk s.data = s := rfl

/- Parsing inverts formatting for every int64-range value that Go could
have written with %d. -/
theorem parseInt64_goFormatInt (k : Int) (h0 : 0 ≤ k) (hmax : k ≤ int64Max) :
    parseInt64 (goFormatInt k) = some k := by
  rw [goFormatInt, if_neg (not_lt.mpr h0)]
  cases hcs : natDecChars k.toNat with
  | nil => exact absurd hcs (natDecChars_ne_nil k.toNat)
  | cons c cs =>
    have hcd : c.isDigit = true :=
      natDecChars_all_digits k.toNat c (by rw [hcs]; exact List.mem_cons_self c cs)
    have hcp : ¬ c = '+' := by
      intro hc
      rw [hc] at hcd
      exact absurd hcd (by decide)
    have hcm : ¬ c = '-' := by
      intro hc
      rw [hc] at hcd
      exact absurd hcd (by decide)
    show (if c = '+' then parseUnsigned 1 cs
          else if c = '-' then parseUnsigned (-1) cs
          else parseUnsigned 1 (c :: cs)) = some k
    rw [if_neg hcp, if_neg hcm]
    rw [parseUnsigned, if_neg (by simp)]
    rw [← hcs, decDigitsVal_natDecChars]
    show (if int64Min ≤ (1 : Int) * (k.toNat : Int) ∧ (1 : Int) * (k.toNat : Int) ≤ int64Max
          then some ((1 : Int) * (k.toNat : Int)) else none) = some k
    have hv : (1 : Int) * (k.toNat : Int) = k := by
      rw [one_mul, Int.toNat_of_nonneg h0]
    rw [hv]
    rw [if_pos ⟨by simp only [int64Min]; omega, hmax⟩]

theorem digit_not_ws (c : Char) (h : c.isDigit = true) : c.isWhitespace = false := by
  by_contra hw
  simp only [Bool.not_eq_false] at hw
  simp only [Char.isWhitespace, Bool.or_eq_true, decide_eq_true_eq] at hw
  rcases hw with ((h1 | h1) | h1) | h1 <;> subst h1 <;> exact absurd h (by decide)

/- Splitting a whitespace-free word off the front of the stream pushes it
onto the accumulator. -/
theorem goFieldsAux_word (w : List Char) : ∀ (rest acc : List Char),
    (∀ c ∈ w, c.isWhitespace = false) →
    goFieldsAux (w ++ rest) acc = goFieldsAux rest (w.reverse ++ acc) := by
  induction w with
  | nil =>
    intro rest acc _
    simp
  | cons c w' ih =>
    intro rest acc hw
    have hc : c.isWhitespace = false := hw c (List.mem_cons_self c w')
    rw [List.cons_append, goFieldsAux, hc]
    simp only [Bool.false_eq_true, if_false]
    rw [ih rest (c :: acc) (fun d hd => hw d (List.mem_cons_of_mem c hd))]
    congr 1
    simp

/- The field splitter on a line "<word> <word>\n" returns the two words. -/
theorem goFieldsAux_two_words (w1 w2 : List Char)
    (h1 : w1 ≠ []) (h2 : w2 ≠ [])
    (hw1 : ∀ c ∈ w1, c.isWhitespace = false) (hw2 : ∀ c ∈ w2, c.isWhitespace = false) :
    goFieldsAux (w1 ++ ' ' :: (w2 ++ ['\n'])) [] = [w1, w2] := by
  rw [goFieldsAux_word w1 (' ' :: (w2 ++ ['\n'])) [] hw1]
  rw [goFieldsAux]
  rw [if_pos (show (' ').isWhitespace = true by decide)]
  rw [if_neg (show ¬(w1.reverse ++ [] = []) by simp [h1])]
  rw [goFieldsAux_word w2 ['\n'] [] hw2]
  rw [goFieldsAux]
  rw [if_pos (show ('\n').isWhitespace = true by decide)]
  rw [if_neg (show ¬(w2.reverse ++ [] = []) by simp [h2])]
  rw [goFieldsAux]
  simp

/- Parsing inverts the format written by Dir.writeAction. -/
theorem parseAction_roundtrip (id oid : String) (sz : Int)
    (hne : oid.data ≠ []) (hws : ∀ c ∈ oid.data, c.isWhitespace = false)
    (h0 : 0 ≤ sz) (hmax : sz ≤ int64Max) :
    parseAction id (oid ++ " " ++ goFormatInt sz ++ "\n") = .ok (oid, sz) := by
  have hgf : (goFormatInt sz).data = natDecChars sz.toNat := by
    rw [goFormatInt, if_neg (not_lt.mpr h0)]
  have hgne : (goFormatInt sz).data ≠ [] := by
    rw [hgf]
    exact natDecChars_ne_nil sz.toNat
  have hgws : ∀ c ∈ (goFormatInt sz).data, c.isWhitespace = false := by
    intro c hc
    rw [hgf] at hc
    exact digit_not_ws c (natDecChars_all_digits sz.toNat c hc)
  have hdata : (oid ++ " " ++ goFormatInt sz ++ "\n").data
      = oid.data ++ ' ' :: ((goFormatInt sz).data ++ ['\n']) := by
    rw [String.data_append, String.data_append, String.data_append]
    rw [show (" " : String).data = [' '] from rfl, show ("\n" : String).data = ['\n'] from rfl]
    simp
  rw [parseAction, goFields, hdata]
  rw [goFieldsAux_two_words oid.data (goFormatInt sz).data hne hgne hws hgws]
  simp only [stringMk_data]
  rw [parseInt64_goFormatInt sz h0 hmax]

theorem lookup_setFile_self (l : List (String × GoFile)) (k : String) (f : GoFile) :
    lookupFile (setFile l k f) k = some f := by
  induction l with
  | nil => simp [setFile, lookupFile]
  | cons e rest ih =>
    obtain ⟨k2, g⟩ := e
    by_cases hk : k2 = k
    · simp [setFile, hk, lookupFile]
    · simp [setFile, hk, lookupFile, ih]

/-- Claim C1: round trip through the disk store.  After a successful
Put(actionID, objectID, size, body) on a well-formed object (hex-like ids
of length at least two, body of exactly the declared size within the int64
range) against a state respecting the content-addressing convention for
that object id, Get(actionID) returns the object id and the object's disk
path, and the file stored there has the declared size and the stored body
as contents. -/
theorem dir_put_get_roundtrip (d : Dir) (st : DirState) (obj : Object) (now : Int)
    (path : String) (st2 : DirState)
    (hb : (obj.Body.length : Int) = obj.Size)
    (ha : 2 ≤ obj.ActionID.length) (ho : 2 ≤ obj.ObjectID.length)
    (how : ∀ c ∈ obj.ObjectID.data, c.isWhitespace = false)
    (hszmax : obj.Size ≤ int64Max)
    (hconv : ∀ g, lookupFile st.objects obj.ObjectID = some g →
        g.content = obj.Body ∧ g.isRegular = true)
    (hput : d.Put st obj now = .ok (path, st2)) :
    ∃ g, d.Get st2 obj.ActionID
        = .ok (obj.ObjectID, d.path ++ "/object/" ++ obj.ObjectID.take 2 ++ "/" ++ obj.ObjectID)
      ∧ lookupFile st2.objects obj.ObjectID = some g
      ∧ g.content = obj.Body ∧ (g.content.length : Int) = obj.Size := by
  have hone : obj.ObjectID.data ≠ [] := by
    intro hnil
    have hzero : obj.ObjectID.length = 0 := by
      show obj.ObjectID.data.length = 0
      rw [hnil]
      rfl
    omega
  have hap : d.actionPath obj.ActionID
      = some (d.path ++ "/action/" ++ obj.ActionID.take 2 ++ "/" ++ obj.ActionID) := by
    simp [Dir.actionPath, sliceTwo, ha]
  obtain ⟨stMid, g, hwo, hgl, hgc, hgr⟩ :
      ∃ stMid g, d.writeObject st obj now
          = .ok (d.path ++ "/object/" ++ obj.ObjectID.take 2 ++ "/" ++ obj.ObjectID,
              (obj.Body.length : Int), stMid)
        ∧ lookupFile stMid.objects obj.ObjectID = some g
        ∧ g.content = obj.Body ∧ g.isRegular = true := by
    cases hlo : lookupFile st.objects obj.ObjectID with
    | none =>
      refine ⟨{ st with objects := setFile st.objects obj.ObjectID (GoFile.mk obj.Body (match obj.ModTime with | some t => t | none => now) true) }, GoFile.mk obj.Body (match obj.ModTime with | some t => t | none => now) true, ?_, lookup_setFile_self _ _ _, rfl, rfl⟩
      unfold Dir.writeObject
      simp only [Dir.objectPath, sliceTwo, ho, if_pos, Option.map_some', hlo]
    | some fi =>
      obtain ⟨hfc, hfr⟩ := hconv fi hlo
      refine ⟨st, fi, ?_, hlo, hfc, hfr⟩
      unfold Dir.writeObject
      simp only [Dir.objectPath, sliceTwo, ho, if_pos, Option.map_some', hlo]
      rw [if_pos ⟨hfr, by rw [hfc]; exact hb⟩, hfc]
  have hrf : readActionFile (setFile stMid.actions obj.ActionID
        ⟨obj.ObjectID ++ " " ++ goFormatInt (obj.Body.length : Int) ++ "\n", now, true⟩)
        obj.ActionID
      = .ok (obj.ObjectID, (obj.Body.length : Int)) := by
    rw [readActionFile, readFileFrom, lookup_setFile_self]
    show parseAction obj.ActionID
        (obj.ObjectID ++ " " ++ goFormatInt (obj.Body.length : Int) ++ "\n")
      = .ok (obj.ObjectID, (obj.Body.length : Int))
    exact parseAction_roundtrip obj.ActionID obj.ObjectID (obj.Body.length : Int)
      hone how (by positivity) (by rw [hb]; exact hszmax)
  have hra : d.readAction
      ⟨setFile stMid.actions obj.ActionID
        ⟨obj.ObjectID ++ " " ++ goFormatInt (obj.Body.length : Int) ++ "\n", now, true⟩,
       stMid.objects⟩ obj.ActionID
      = .ok (obj.ObjectID, (obj.Body.length : Int)) := by
    unfold Dir.readAction
    rw [hap]
    show (match readActionFile (setFile stMid.actions obj.ActionID
        ⟨obj.ObjectID ++ " " ++ goFormatInt (obj.Body.length : Int) ++ "\n", now, true⟩)
        obj.ActionID with
      | .error e => DOut.failed e
      | .ok r => DOut.ok r) = .ok (obj.ObjectID, (obj.Body.length : Int))
    rw [hrf]
  have hfinal : ∃ g2, d.Get
      ⟨setFile stMid.actions obj.ActionID
        ⟨obj.ObjectID ++ " " ++ goFormatInt (obj.Body.length : Int) ++ "\n", now, true⟩,
       stMid.objects⟩ obj.ActionID
      = .ok (obj.ObjectID,
          d.path ++ "/object/" ++ obj.ObjectID.take 2 ++ "/" ++ obj.ObjectID)
      ∧ lookupFile stMid.objects obj.ObjectID = some g2
      ∧ g2.content = obj.Body ∧ (g2.content.length : Int) = obj.Size := by
    refine ⟨g, ?_, hgl, hgc, by rw [hgc]; exact hb⟩
    unfold Dir.Get
    rw [hra]
    simp only [Dir.objectPath, sliceTwo, ho, if_pos, Option.map_some']
    show (match lookupFile stMid.objects obj.ObjectID with
      | none => DOut.ok ("", "")
      | some fi =>
        if (fi.content.length : Int) ≠ (obj.Body.length : Int) then DOut.ok ("", "")
        else DOut.ok (obj.ObjectID,
          d.path ++ "/object/" ++ obj.ObjectID.take 2 ++ "/" ++ obj.ObjectID))
      = DOut.ok (obj.ObjectID,
          d.path ++ "/object/" ++ obj.ObjectID.take 2 ++ "/" ++ obj.ObjectID)
    rw [hgl]
    show (if (g.content.length : Int) ≠ (obj.Body.length : Int) then DOut.ok ("", "")
        else DOut.ok (obj.ObjectID,
          d.path ++ "/object/" ++ obj.ObjectID.take 2 ++ "/" ++ obj.ObjectID))
      = DOut.ok (obj.ObjectID,
          d.path ++ "/object/" ++ obj.ObjectID.take 2 ++ "/" ++ obj.ObjectID)
    rw [if_neg (show ¬((g.content.length : Int) ≠ (obj.Body.length : Int)) from
      fun hne => hne (by rw [hgc]))]
  unfold Dir.Put at hput
  simp only [hwo] at hput
  unfold Dir.writeAction at hput
  simp only [hap] at hput
  cases hla : lookupFile stMid.actions obj.ActionID with
  | none =>
    simp only [hla] at hput
    cases hput
    exact hfinal
  | some gact =>
    simp only [hla] at hput
    by_cases hgr2 : gact.isRegular = true
    · rw [if_pos hgr2] at hput
      cases hput
      exact hfinal
    · rw [if_neg hgr2] at hput
      exact DOut.noConfusion hput

theorem dir_put_get_roundtrip_witness :
    ∃ g, Dir.Get ⟨"r"⟩
        ⟨[("0304", ⟨"0b1ec7 5\n", 7, true⟩)], [("0b1ec7", ⟨"xyzzy", 7, true⟩)]⟩ "0304"
        = .ok ("0b1ec7", "r/object/0b/0b1ec7")
      ∧ lookupFile [("0b1ec7", ⟨"xyzzy", 7, true⟩)] "0b1ec7" = some g
      ∧ g.content = "xyzzy" ∧ (g.content.length : Int) = 5 :=
  dir_put_get_roundtrip ⟨"r"⟩ ⟨[], []⟩ ⟨"0304", "0b1ec7", 5, "xyzzy", none⟩ 7
    "r/object/0b/0b1ec7"
    ⟨[("0304", ⟨"0b1ec7 5\n", 7, true⟩)], [("0b1ec7", ⟨"xyzzy", 7, true⟩)]⟩
    (by decide) (by decide) (by decide) (by decide) (by decide)
    (fun g hg => Option.noConfusion hg) (by decide)

/- Inversion of one step of the mark pass: a successful walk of a cons
splits into a successful walk of the tail plus one of three head actions:
skip (non-regular or empty id), prune (object absent or record expired),
or keep-and-mark. -/
theorem markActions_cons_ok (d : Dir) (objs : List (String × GoFile)) (now age : Int)
    (id0 : String) (f0 : GoFile) (rest : List (String × GoFile)) (mo : MarkOut)
    (h : markActions d objs now age ((id0, f0) :: rest) = .ok mo) :
    ∃ o2, markActions d objs now age rest = .ok o2 ∧
      (((f0.isRegular = false ∨ id0 = "") ∧
          mo = ⟨(id0, f0) :: o2.kept, o2.keep, o2.seen, o2.pruned⟩)
       ∨ (f0.isRegular = true ∧ id0 ≠ "" ∧ ∃ objID sz,
            parseAction id0 f0.content = .ok (objID, sz) ∧
            ((lookupFile objs objID = none ∨ now - f0.modTime > age) ∧
                mo = ⟨o2.kept, o2.keep, o2.seen + 1, o2.pruned + 1⟩
             ∨ lookupFile objs objID ≠ none ∧ ¬(now - f0.modTime > age) ∧
                mo = ⟨(id0, f0) :: o2.kept, objID :: o2.keep, o2.seen + 1, o2.pruned⟩))) := by
  rw [markActions] at h
  by_cases h1 : f0.isRegular = false
  · rw [if_pos h1] at h
    cases hr : markActions d objs now age rest with
    | panicked => rw [hr] at h; exact DOut.noConfusion h
    | failed e => rw [hr] at h; exact DOut.noConfusion h
    | ok o2 =>
      rw [hr] at h
      have h2 : DOut.ok (MarkOut.mk ((id0, f0) :: o2.kept) o2.keep o2.seen o2.pruned)
          = DOut.ok mo := h
      injection h2 with h3
      exact ⟨o2, rfl, .inl ⟨.inl h1, h3.symm⟩⟩
  · have h1t : f0.isRegular = true := by revert h1; cases f0.isRegular <;> simp
    rw [if_neg h1] at h
    by_cases h2 : id0 = ""
    · rw [if_pos h2] at h
      cases hr : markActions d objs now age rest with
      | panicked => rw [hr] at h; exact DOut.noConfusion h
      | failed e => rw [hr] at h; exact DOut.noConfusion h
      | ok o2 =>
        rw [hr] at h
        have h4 : DOut.ok (MarkOut.mk ((id0, f0) :: o2.kept) o2.keep o2.seen o2.pruned)
            = DOut.ok mo := h
        injection h4 with h5
        exact ⟨o2, rfl, .inl ⟨.inr h2, h5.symm⟩⟩
    · rw [if_neg h2] at h
      cases hp : parseAction id0 f0.content with
      | error e => rw [hp] at h; exact DOut.noConfusion h
      | ok pr =>
        obtain ⟨objID, sz⟩ := pr
        simp only [hp] at h
        cases hop : d.objectPath objID with
        | none => rw [hop] at h; exact DOut.noConfusion h
        | some p =>
          rw [hop] at h
          cases hlo : lookupFile objs objID with
          | none =>
            rw [hlo] at h
            cases hr : markActions d objs now age rest with
            | panicked => rw [hr] at h; exact DOut.noConfusion h
            | failed e => rw [hr] at h; exact DOut.noConfusion h
            | ok o2 =>
              rw [hr] at h
              have h4 : DOut.ok (MarkOut.mk o2.kept o2.keep (o2.seen + 1) (o2.pruned + 1))
                  = DOut.ok mo := h
              injection h4 with h5
              exact ⟨o2, rfl, .inr ⟨h1t, h2, objID, sz, rfl, .inl ⟨.inl hlo, h5.symm⟩⟩⟩
          | some go =>
            rw [hlo] at h
            by_cases hage : now - f0.modTime > age
            · rw [if_pos hage] at h
              cases hr : markActions d objs now age rest with
              | panicked => rw [hr] at h; exact DOut.noConfusion h
              | failed e => rw [hr] at h; exact DOut.noConfusion h
              | ok o2 =>
                rw [hr] at h
                have h4 : DOut.ok (MarkOut.mk o2.kept o2.keep (o2.seen + 1) (o2.pruned + 1))
                    = DOut.ok mo := h
                injection h4 with h5
                exact ⟨o2, rfl, .inr ⟨h1t, h2, objID, sz, rfl, .inl ⟨.inr hage, h5.symm⟩⟩⟩
            · rw [if_neg hage] at h
              cases hr : markActions d objs now age rest with
              | panicked => rw [hr] at h; exact DOut.noConfusion h
              | failed e => rw [hr] at h; exact DOut.noConfusion h
              | ok o2 =>
                rw [hr] at h
                have h4 : DOut.ok (MarkOut.mk ((id0, f0) :: o2.kept) (objID :: o2.keep)
                    (o2.seen + 1) o2.pruned) = DOut.ok mo := h
                injection h4 with h5
                refine ⟨o2, rfl, .inr ⟨h1t, h2, objID, sz, rfl, .inr ⟨?_, hage, h5.symm⟩⟩⟩
                rw [hlo]
                exact Option.noConfusion

theorem lookup_eq_none_iff (l : List (String × GoFile)) (k : String) :
    lookupFile l k = none ↔ k ∉ l.map Prod.fst := by
  induction l with
  | nil => simp [lookupFile]
  | cons e rest ih =>
    obtain ⟨k2, g⟩ := e
    by_cases hk : k2 = k
    · subst hk
      simp [lookupFile]
    · simp only [lookupFile, if_neg hk, List.map_cons, List.mem_cons, ih]
      constructor
      · intro hn
        rintro (h | h)
        · exact hk h.symm
        · exact hn h
      · intro hn hm
        exact hn (Or.inr hm)

theorem lookup_of_mem_nodup (l : List (String × GoFile)) (k : String) (v : GoFile)
    (hnd : keysNodup l) (hm : (k, v) ∈ l) : lookupFile l k = some v := by
  induction l with
  | nil => cases hm
  | cons e rest ih =>
    obtain ⟨k2, g⟩ := e
    rcases List.mem_cons.mp hm with heq | hm2
    · injection heq with h1 h2
      rw [lookupFile, if_pos h1.symm, h2]
    · have hk : ¬ k2 = k := by
        intro he
        apply (List.nodup_cons.mp hnd).1
        rw [he]
        exact List.mem_map.mpr ⟨(k, v), hm2, rfl⟩
      rw [lookupFile, if_neg hk]
      exact ih (List.nodup_cons.mp hnd).2 hm2

theorem keysNodup_tail (k : String) (g : GoFile) (l : List (String × GoFile))
    (h : keysNodup ((k, g) :: l)) : keysNodup l :=
  (List.nodup_cons.mp h).2

/- The mark pass keeps a sublist of the walked action files. -/
theorem mark_kept_sublist (d : Dir) (objs : List (String × GoFile)) (now age : Int) :
    ∀ (l : List (String × GoFile)) (mo : MarkOut),
      markActions d objs now age l = .ok mo → mo.kept.Sublist l := by
  intro l
  induction l with
  | nil =>
    intro mo h
    have h2 : DOut.ok (MarkOut.mk [] [] 0 0) = DOut.ok mo := h
    injection h2 with h3
    rw [h3.symm]
  | cons e rest ih =>
    intro mo h
    obtain ⟨id0, f0⟩ := e
    obtain ⟨o2, hr, hcase⟩ := markActions_cons_ok d objs now age id0 f0 rest mo h
    rcases hcase with ⟨_, hmo⟩ | ⟨_, _, objID, sz, _, ⟨_, hmo⟩ | ⟨_, _, hmo⟩⟩
    · rw [hmo]
      exact (ih o2 hr).cons₂ _
    · rw [hmo]
      exact (ih o2 hr).cons _
    · rw [hmo]
      exact (ih o2 hr).cons₂ _

/- The sweep pass keeps a sublist of the walked object files. -/
theorem sweep_kept_sublist (keep : List String) :
    ∀ l : List (String × GoFile), (sweepObjects keep l).kept.Sublist l := by
  intro l
  induction l with
  | nil => simp [sweepObjects]
  | cons e rest ih =>
    obtain ⟨id0, f0⟩ := e
    rw [sweepObjects]
    by_cases h1 : f0.isRegular = false
    · rw [if_pos h1]
      exact ih.cons₂ _
    · rw [if_neg h1]
      by_cases h2 : id0 ≠ "" ∧ id0 ∉ keep
      · rw [if_pos h2]
        exact ih.cons _
      · rw [if_neg h2]
        exact ih.cons₂ _

/- A counted action whose object is absent or whose record has aged out
does not survive the mark pass. -/
theorem mark_pruned_not_mem (d : Dir) (objs : List (String × GoFile)) (now age : Int) :
    ∀ (l : List (String × GoFile)) (mo : MarkOut), keysNodup l →
      markActions d objs now age l = .ok mo →
      ∀ id f objID sz, (id, f) ∈ l → f.isRegular = true → id ≠ "" →
        parseAction id f.content = .ok (objID, sz) →
        (lookupFile objs objID = none ∨ now - f.modTime > age) →
        id ∉ mo.kept.map Prod.fst := by
  intro l
  induction l with
  | nil =>
    intro mo _ _ id f objID sz hmem
    cases hmem
  | cons e rest ih =>
    intro mo hnd h id f objID sz hmem hreg hid hparse hbad
    obtain ⟨id0, f0⟩ := e
    obtain ⟨o2, hr, hcase⟩ := markActions_cons_ok d objs now age id0 f0 rest mo h
    have hnd2 : keysNodup rest := keysNodup_tail id0 f0 rest hnd
    rcases List.mem_cons.mp hmem with heq | hmem2
    · injection heq with hid0 hf0
      rcases hcase with ⟨hsk, hmo⟩ | ⟨h1, h2, objID2, sz2, hp2, hrest⟩
      · rcases hsk with hf | hi
        · rw [hf0.symm] at hf
          rw [hreg] at hf
          exact absurd hf (by decide)
        · exact absurd (hid0.symm ▸ hi) hid
      · have hdet : objID = objID2 ∧ sz = sz2 := by
          rw [hid0, hf0] at hparse
          have := hparse.symm.trans hp2
          injection this with hpr
          injection hpr with hx hy
          exact ⟨hx, hy⟩
        rcases hrest with ⟨hbadc, hmo⟩ | ⟨hex, hnage, hmo⟩
        · rw [hmo]
          intro hin
          have hsub := (mark_kept_sublist d objs now age rest o2 hr).map Prod.fst
          exact (List.nodup_cons.mp hnd).1 (hid0 ▸ hsub.subset hin)
        · rcases hbad with hb | hb
          · exact absurd (hdet.1 ▸ hb) hex
          · rw [hf0] at hb
            exact absurd hb hnage
    · have htail : id ∉ o2.kept.map Prod.fst :=
        ih o2 hnd2 hr id f objID sz hmem2 hreg hid hparse hbad
      have hidne : ¬ id = id0 := by
        intro he
        apply (List.nodup_cons.mp hnd).1
        rw [he.symm]
        exact List.mem_map.mpr ⟨(id, f), hmem2, rfl⟩
      rcases hcase with ⟨_, hmo⟩ | ⟨_, _, objID2, sz2, _, ⟨_, hmo⟩ | ⟨_, _, hmo⟩⟩
      · rw [hmo]
        simp only [List.map_cons, List.mem_cons]
        rintro (hx | hx)
        · exact hidne hx
        · exact htail hx
      · rw [hmo]
        exact htail
      · rw [hmo]
        simp only [List.map_cons, List.mem_cons]
        rintro (hx | hx)
        · exact hidne hx
        · exact htail hx

/- Every marked object id is referenced by some surviving counted action. -/
theorem mark_keep_mem (d : Dir) (objs : List (String × GoFile)) (now age : Int) :
    ∀ (l : List (String × GoFile)) (mo : MarkOut),
      markActions d objs now age l = .ok mo →
      ∀ oid, oid ∈ mo.keep → ∃ id f sz, (id, f) ∈ mo.kept ∧ f.isRegular = true ∧
        id ≠ "" ∧ parseAction id f.content = .ok (oid, sz) := by
  intro l
  induction l with
  | nil =>
    intro mo h oid hoid
    have h2 : DOut.ok (MarkOut.mk [] [] 0 0) = DOut.ok mo := h
    injection h2 with h3
    rw [h3.symm] at hoid
    cases hoid
  | cons e rest ih =>
    intro mo h oid hoid
    obtain ⟨id0, f0⟩ := e
    obtain ⟨o2, hr, hcase⟩ := markActions_cons_ok d objs now age id0 f0 rest mo h
    rcases hcase with ⟨_, hmo⟩ | ⟨h1, h2, objID, sz, hp, ⟨_, hmo⟩ | ⟨_, _, hmo⟩⟩
    · rw [hmo] at hoid ⊢
      obtain ⟨id, f, sz, hm, hf, hi, hpp⟩ := ih o2 hr oid hoid
      exact ⟨id, f, sz, List.mem_cons_of_mem _ hm, hf, hi, hpp⟩
    · rw [hmo] at hoid ⊢
      exact ih o2 hr oid hoid
    · rw [hmo] at hoid ⊢
      rcases List.mem_cons.mp hoid with heq | hoid2
      · exact ⟨id0, f0, sz, List.mem_cons_self _ _, h1, h2, heq ▸ hp⟩
      · obtain ⟨id, f, sz2, hm, hf, hi, hpp⟩ := ih o2 hr oid hoid2
        exact ⟨id, f, sz2, List.mem_cons_of_mem _ hm, hf, hi, hpp⟩

/- Every surviving counted action's object id is marked. -/
theorem mark_kept_ref_keep (d : Dir) (objs : List (String × GoFile)) (now age : Int) :
    ∀ (l : List (String × GoFile)) (mo : MarkOut),
      markActions d objs now age l = .ok mo →
      ∀ id f oid sz, (id, f) ∈ mo.kept → f.isRegular = true → id ≠ "" →
        parseAction id f.content = .ok (oid, sz) → oid ∈ mo.keep := by
  intro l
  induction l with
  | nil =>
    intro mo h id f oid sz hm
    have h2 : DOut.ok (MarkOut.mk [] [] 0 0) = DOut.ok mo := h
    injection h2 with h3
    rw [h3.symm] at hm
    cases hm
  | cons e rest ih =>
    intro mo h id f oid sz hm hreg hid hparse
    obtain ⟨id0, f0⟩ := e
    obtain ⟨o2, hr, hcase⟩ := markActions_cons_ok d objs now age id0 f0 rest mo h
    rcases hcase with ⟨hsk, hmo⟩ | ⟨h1, h2, objID, sz2, hp, ⟨_, hmo⟩ | ⟨_, _, hmo⟩⟩
    · rw [hmo] at hm ⊢
      rcases List.mem_cons.mp hm with heq | hm2
      · injection heq with hid0 hf0
        rcases hsk with hf | hi
        · rw [hf0] at hreg
          rw [hreg] at hf
          exact absurd hf (by decide)
        · exact absurd (hid0 ▸ hi) hid
      · exact ih o2 hr id f oid sz hm2 hreg hid hparse
    · rw [hmo] at hm ⊢
      exact ih o2 hr id f oid sz hm hreg hid hparse
    · rw [hmo] at hm ⊢
      rcases List.mem_cons.mp hm with heq | hm2
      · injection heq with hid0 hf0
        rw [hid0, hf0] at hparse
        have := hparse.symm.trans hp
        injection this with hpr
        injection hpr with hx _
        exact List.mem_cons.mpr (Or.inl hx)
      · exact List.mem_cons_of_mem _ (ih o2 hr id f oid sz hm2 hreg hid hparse)

/- The mark counters: seen counts the counted actions, and pruned plus the
surviving counted actions equals seen. -/
theorem mark_counts (d : Dir) (objs : List (String × GoFile)) (now age : Int) :
    ∀ (l : List (String × GoFile)) (mo : MarkOut),
      markActions d objs now age l = .ok mo →
      mo.seen = countedActions l ∧ mo.pruned + countedActions mo.kept = mo.seen := by
  intro l
  induction l with
  | nil =>
    intro mo h
    have h2 : DOut.ok (MarkOut.mk [] [] 0 0) = DOut.ok mo := h
    injection h2 with h3
    rw [h3.symm]
    exact ⟨rfl, rfl⟩
  | cons e rest ih =>
    intro mo h
    obtain ⟨id0, f0⟩ := e
    obtain ⟨o2, hr, hcase⟩ := markActions_cons_ok d objs now age id0 f0 rest mo h
    obtain ⟨ihs, ihp⟩ := ih o2 hr
    rcases hcase with ⟨hsk, hmo⟩ | ⟨h1, h2, objID, sz, hp, ⟨_, hmo⟩ | ⟨_, _, hmo⟩⟩
    · have hce : countedEntry (id0, f0) = false := by
        rcases hsk with hf | hi
        · simp [countedEntry, hf]
        · simp [countedEntry, hi]
      rw [hmo]
      constructor
      · show o2.seen = countedActions ((id0, f0) :: rest)
        rw [countedActions, List.filter_cons, hce]
        exact ihs
      · show o2.pruned + countedActions ((id0, f0) :: o2.kept) = o2.seen
        rw [countedActions, List.filter_cons, hce]
        exact ihp
    · have hce : countedEntry (id0, f0) = true := by
        simp [countedEntry, h1, h2]
      rw [hmo]
      constructor
      · show o2.seen + 1 = countedActions ((id0, f0) :: rest)
        rw [countedActions, List.filter_cons, hce]
        simp only [List.length_cons]
        rw [ihs]
        rfl
      · show o2.pruned + 1 + countedActions o2.kept = o2.seen + 1
        generalize countedActions o2.kept = ck at ihp ⊢
        omega
    · have hce : countedEntry (id0, f0) = true := by
        simp [countedEntry, h1, h2]
      rw [hmo]
      constructor
      · show o2.seen + 1 = countedActions ((id0, f0) :: rest)
        rw [countedActions, List.filter_cons, hce]
        simp only [List.length_cons]
        rw [ihs]
        rfl
      · show o2.pruned + countedActions ((id0, f0) :: o2.kept) = o2.seen + 1
        have hcc : countedActions ((id0, f0) :: o2.kept) = countedActions o2.kept + 1 := by
          simp [countedActions, List.filter_cons, hce]
        rw [hcc]
        generalize countedActions o2.kept = ck at ihp ⊢
        omega

/- A regular object file with a non-empty id outside the mark set does not
survive the sweep. -/
theorem sweep_removed (keep : List String) :
    ∀ (l : List (String × GoFile)), keysNodup l →
      ∀ oid gObj, (oid, gObj) ∈ l → gObj.isRegular = true → oid ≠ "" → oid ∉ keep →
        oid ∉ (sweepObjects keep l).kept.map Prod.fst := by
  intro l
  induction l with
  | nil =>
    intro _ oid gObj hm
    cases hm
  | cons e rest ih =>
    intro hnd oid gObj hm hreg hne hnk
    obtain ⟨id0, f0⟩ := e
    rcases List.mem_cons.mp hm with heq | hm2
    · injection heq with hid0 hf0
      rw [sweepObjects, if_neg (by rw [hf0.symm, hreg]; simp),
        if_pos ⟨hid0 ▸ hne, hid0 ▸ hnk⟩]
      intro hin
      have hsub := (sweep_kept_sublist keep rest).map Prod.fst
      exact (List.nodup_cons.mp hnd).1 (hid0 ▸ hsub.subset hin)
    · have htail : oid ∉ (sweepObjects keep rest).kept.map Prod.fst :=
        ih (keysNodup_tail id0 f0 rest hnd) oid gObj hm2 hreg hne hnk
      have hidne : ¬ oid = id0 := by
        intro he
        apply (List.nodup_cons.mp hnd).1
        rw [he.symm]
        exact List.mem_map.mpr ⟨(oid, gObj), hm2, rfl⟩
      rw [sweepObjects]
      by_cases h1 : f0.isRegular = false
      · rw [if_pos h1]
        simp only [List.map_cons, List.mem_cons]
        rintro (hx | hx)
        · exact hidne hx
        · exact htail hx
      · rw [if_neg h1]
        by_cases h2 : id0 ≠ "" ∧ id0 ∉ keep
        · rw [if_pos h2]
          exact htail
        · rw [if_neg h2]
          simp only [List.map_cons, List.mem_cons]
          rintro (hx | hx)
          · exact hidne hx
          · exact htail hx

/- A non-regular entry, an entry with an empty id, or a marked object
survives the sweep unchanged. -/
theorem sweep_kept_mem (keep : List String) :
    ∀ (l : List (String × GoFile)) oid gObj, (oid, gObj) ∈ l →
      (gObj.isRegular = false ∨ oid = "" ∨ oid ∈ keep) →
      (oid, gObj) ∈ (sweepObjects keep l).kept := by
  intro l
  induction l with
  | nil =>
    intro oid gObj hm
    cases hm
  | cons e rest ih =>
    intro oid gObj hm hkeep
    obtain ⟨id0, f0⟩ := e
    rw [sweepObjects]
    rcases List.mem_cons.mp hm with heq | hm2
    · injection heq with hid0 hf0
      subst hid0
      subst hf0
      by_cases h1 : gObj.isRegular = false
      · rw [if_pos h1]
        exact List.mem_cons_self _ _
      · rw [if_neg h1]
        have h2 : ¬(oid ≠ "" ∧ oid ∉ keep) := by
          rcases hkeep with hk | hk | hk
          · exact absurd hk h1
          · intro hc
            exact hc.1 hk
          · intro hc
            exact hc.2 hk
        rw [if_neg h2]
        exact List.mem_cons_self _ _
    · have htail := ih oid gObj hm2 hkeep
      by_cases h1 : f0.isRegular = false
      · rw [if_pos h1]
        exact List.mem_cons_of_mem _ htail
      · rw [if_neg h1]
        by_cases h2 : id0 ≠ "" ∧ id0 ∉ keep
        · rw [if_pos h2]
          exact htail
        · rw [if_neg h2]
          exact List.mem_cons_of_mem _ htail

/-- Claim C2: garbage-collector pruning invariants of PruneEntries.  For a
successfully completed prune on a well-formed directory tree (unique
paths): every counted action record whose referenced object file is absent
is deleted; every record older than the age threshold is deleted; every
regular object file referenced by no surviving action record is deleted,
and one referenced by a surviving record is kept unchanged; the Actions
counter counts the walked records, and ActionsPruned accounts exactly for
the deleted ones. -/
theorem prune_entries_invariants (d : Dir) (st : DirState) (now age : Int)
    (st2 : DirState) (stats : Stats)
    (hA : keysNodup st.actions) (hO : keysNodup st.objects)
    (h : d.PruneEntries st now age = .ok (st2, stats)) :
    (∀ id f objID sz, (id, f) ∈ st.actions → f.isRegular = true → id ≠ "" →
        parseAction id f.content = .ok (objID, sz) →
        (lookupFile st.objects objID = none ∨ now - f.modTime > age) →
        lookupFile st2.actions id = none)
    ∧ (∀ oid gObj, (oid, gObj) ∈ st.objects → gObj.isRegular = true → oid ≠ "" →
        ((¬ survivorRefs st2 oid → lookupFile st2.objects oid = none)
         ∧ (survivorRefs st2 oid → lookupFile st2.objects oid = some gObj)))
    ∧ stats.Actions = countedActions st.actions
    ∧ stats.ActionsPruned + countedActions st2.actions = stats.Actions := by
  unfold Dir.PruneEntries at h
  cases hm : markActions d st.objects now age st.actions with
  | panicked => rw [hm] at h; exact DOut.noConfusion h
  | failed e => rw [hm] at h; exact DOut.noConfusion h
  | ok mo =>
    rw [hm] at h
    have h2 : DOut.ok (((⟨mo.kept, (sweepObjects mo.keep st.objects).kept⟩ : DirState),
        (⟨mo.seen, mo.pruned, (sweepObjects mo.keep st.objects).seen,
          (sweepObjects mo.keep st.objects).pruned,
          (sweepObjects mo.keep st.objects).bytes⟩ : Stats))) = DOut.ok (st2, stats) := h
    injection h2 with h3
    injection h3 with h4 h5
    subst h4
    subst h5
    have hiff : ∀ oid, survivorRefs
        ⟨mo.kept, (sweepObjects mo.keep st.objects).kept⟩ oid ↔ oid ∈ mo.keep := by
      intro oid
      constructor
      · rintro ⟨id, f, sz, hmem, hreg, hid, hp⟩
        exact mark_kept_ref_keep d st.objects now age st.actions mo hm id f oid sz
          hmem hreg hid hp
      · intro hk
        obtain ⟨id, f, sz, hmem, hreg, hid, hp⟩ :=
          mark_keep_mem d st.objects now age st.actions mo hm oid hk
        exact ⟨id, f, sz, hmem, hreg, hid, hp⟩
    refine ⟨?_, ?_, ?_, ?_⟩
    · intro id f objID sz hmem hreg hid hparse hbad
      apply (lookup_eq_none_iff _ _).mpr
      exact mark_pruned_not_mem d st.objects now age st.actions mo hA hm
        id f objID sz hmem hreg hid hparse hbad
    · intro oid gObj hmem hreg hne
      constructor
      · intro hns
        apply (lookup_eq_none_iff _ _).mpr
        refine sweep_removed mo.keep st.objects hO oid gObj hmem hreg hne ?_
        intro hk
        exact hns ((hiff oid).mpr hk)
      · intro hs
        have hk : oid ∈ mo.keep := (hiff oid).mp hs
        have hmem2 : (oid, gObj) ∈ (sweepObjects mo.keep st.objects).kept :=
          sweep_kept_mem mo.keep st.objects oid gObj hmem (Or.inr (Or.inr hk))
        have hndk : keysNodup (sweepObjects mo.keep st.objects).kept :=
          List.Nodup.sublist ((sweep_kept_sublist mo.keep st.objects).map Prod.fst) hO
        exact lookup_of_mem_nodup _ _ _ hndk hmem2
    · exact (mark_counts d st.objects now age st.actions mo hm).1
    · exact (mark_counts d st.objects now age st.actions mo hm).2

theorem prune_entries_invariants_witness :
    lookupFile [("aa", (⟨"bb 1\n", 8, true⟩ : GoFile))] "cc" = none
    ∧ (2 : Nat) = countedActions
        [("aa", ⟨"bb 1\n", 8, true⟩), ("cc", ⟨"dd 5\n", 9, true⟩)] := by
  have hmain := prune_entries_invariants ⟨"r"⟩
    ⟨[("aa", ⟨"bb 1\n", 8, true⟩), ("cc", ⟨"dd 5\n", 9, true⟩)],
     [("bb", ⟨"x", 1, true⟩), ("ee", ⟨"zz", 2, true⟩)]⟩ 10 5
    ⟨[("aa", ⟨"bb 1\n", 8, true⟩)], [("bb", ⟨"x", 1, true⟩)]⟩ ⟨2, 1, 2, 1, 2⟩
    (by unfold keysNodup; decide) (by unfold keysNodup; decide) (by decide)
  exact ⟨hmain.1 "cc" ⟨"dd 5\n", 9, true⟩ "dd" 5 (by decide) (by decide) (by decide) rfl
      (Or.inl (by decide)),
    hmain.2.2.1⟩
